import Mathlib

/-
  Verification development for the task-manager presentation core:
  the reconciliation engine (`table_view/models.rs`), the filter pipeline
  (`table_view/mod.rs`) and the persisted-sort restoration
  (`table_view/settings.rs`).

  Shallow embedding conventions:
  * Rust `HashMap<K, Entity>` snapshots are modelled as `List Entity`
    keyed by the entity's own identity field (the snapshot contract keys
    each map by that field); lookups use `List.find?` on the field.
  * Rust `HashSet` values are modelled as `List Nat` with set-style
    insertion (`insertU`); only membership is ever observed.
  * GObject `RowModel` references are modelled as values carrying an
    allocation token `ref_`; "mutating the node in place" becomes a pure
    field update that preserves `ref_`.
  * Numeric usage-stat fields (floats / unsigned integers in the source)
    are abstracted to `Nat`; field-wise saturating addition is plain `+`
    on the unbounded model.
  * The unbounded mutual recursion `update_processes` / `update_process`
    is given an explicit fuel parameter; exhausting the fuel yields
    `none`, which models non-termination / stack exhaustion.  Missing
    lookups are handled exactly as in the source (skip / treat as dead).
-/

namespace ETM

/-- Modelled from the spec: per-process usage statistics from the
`magpie_types` crate (not part of `src/`): CPU, memory, shared memory,
disk I/O, network, GPU and GPU-memory usage fields. -/
structure ProcessUsageStats where
  cpu_usage : Nat := 0
  memory_usage : Nat := 0
  shared_memory_usage : Nat := 0
  disk_usage : Nat := 0
  network_usage : Nat := 0
  gpu_usage : Nat := 0
  gpu_memory_usage : Nat := 0
deriving Repr, DecidableEq

/-- Modelled from the spec: field-wise saturating sum of usage stats
(`ProcessUsageStats::merge` of the `magpie_types` crate); saturation is
the identity on the unbounded `Nat` model. -/
def ProcessUsageStats.merge (a b : ProcessUsageStats) : ProcessUsageStats where
  cpu_usage := a.cpu_usage + b.cpu_usage
  memory_usage := a.memory_usage + b.memory_usage
  shared_memory_usage := a.shared_memory_usage + b.shared_memory_usage
  disk_usage := a.disk_usage + b.disk_usage
  network_usage := a.network_usage + b.network_usage
  gpu_usage := a.gpu_usage + b.gpu_usage
  gpu_memory_usage := a.gpu_memory_usage + b.gpu_memory_usage

/-- Process record of the snapshot (`magpie_types::processes::Process`):
pid, raw name, executable path, argv, child pid links and usage stats. -/
structure Process where
  pid : Nat
  name : String := ""
  exe : String := ""
  cmd : List String := []
  children : List Nat := []
  usage_stats : ProcessUsageStats := {}
deriving Repr, DecidableEq

/-- Icon descriptor variants (`magpie_types::apps::icon::Icon`). -/
inductive Icon where
  | path (p : String)
  | id (i : String)
deriving Repr, DecidableEq

/-- App record of the snapshot (`magpie_types::apps::App`); `icon` is an
optional wrapper whose own `icon` field is again optional, as in the
prost-generated source type. -/
structure App where
  id : String
  name : String := ""
  icon : Option (Option Icon) := none
  pids : List Nat := []
deriving Repr, DecidableEq

/-- Service record of the snapshot (`magpie_types::services::Service`). -/
structure Service where
  id : Nat
  name : String := ""
  file_path : String := ""
  user : Option String := none
  group : Option String := none
  running : Bool := false
  enabled : Bool := false
  failed : Bool := false
  pid : Option Nat := none
deriving Repr, DecidableEq

/-- Content-type tag carried by every presentation node. -/
inductive ContentType where
  | sectionHeader
  | app
  | process
  | service
deriving Repr, DecidableEq

/-- Section tag: which of the two fixed top-level buckets a node renders
under. -/
inductive SectionType where
  | firstSection
  | secondSection
deriving Repr, DecidableEq

/-- Modelled from the spec: the scalar fields of a Presentation Node
(`table_view/row_model.rs` is not part of `src/`).  `ref_` is the
allocation token standing for GObject reference identity: builders mint
nodes and the update functions never touch it. -/
structure RowCore where
  ref_ : Nat := 0
  id : String := ""
  pid : Nat := 0
  service_id : Nat := 0
  name : String := ""
  icon : String := ""
  command_line : String := ""
  file_path : String := ""
  user : String := ""
  group : String := ""
  content_type : ContentType := .sectionHeader
  section_type : SectionType := .firstSection
  stats : ProcessUsageStats := {}
  service_running : Bool := false
  service_enabled : Bool := false
  service_failed : Bool := false
  service_stopped : Bool := false
deriving Repr, DecidableEq

/-- Modelled from the spec: a Presentation Node — scalar fields plus the
ordered child list it exclusively owns. -/
inductive RowModel where
  | mk (core : RowCore) (children : List RowModel)
deriving Repr

def RowModel.core : RowModel → RowCore
  | .mk c _ => c

def RowModel.children : RowModel → List RowModel
  | .mk _ cs => cs

def RowModel.withCore : RowModel → RowCore → RowModel
  | .mk _ cs, c => .mk c cs

def RowModel.withChildren : RowModel → List RowModel → RowModel
  | .mk c _, cs => .mk c cs

def RowModel.ref_ (r : RowModel) : Nat := r.core.ref_
def RowModel.id (r : RowModel) : String := r.core.id
def RowModel.pid (r : RowModel) : Nat := r.core.pid
def RowModel.service_id (r : RowModel) : Nat := r.core.service_id
def RowModel.name (r : RowModel) : String := r.core.name
def RowModel.content_type (r : RowModel) : ContentType := r.core.content_type
def RowModel.section_type (r : RowModel) : SectionType := r.core.section_type

/-- Snapshot lookup: `process_map.get(&pid)` on the pid-keyed map. -/
def pfind (pm : List Process) (pid : Nat) : Option Process :=
  pm.find? (fun p => p.pid == pid)

/-- Snapshot lookup: `app_map.get(&app_id)` on the id-keyed map. -/
def afind (am : List App) (i : String) : Option App :=
  am.find? (fun a => a.id == i)

/-- Snapshot lookup: `services.get(&service_id)` on the id-keyed map. -/
def sfind (sm : List Service) (i : Nat) : Option Service :=
  sm.find? (fun s => s.id == i)

/-- Lookup in the pid-to-icon map `app_icons`. -/
def ilookup (m : List (Nat × String)) (k : Nat) : Option String :=
  (m.find? (fun e => e.1 == k)).map (·.2)

/-- Lookup in the pid-to-node map `process_model_map`. -/
def mlookup (m : List (Nat × RowModel)) (k : Nat) : Option RowModel :=
  (m.find? (fun e => e.1 == k)).map (·.2)

/-- `HashSet::insert`: add an element unless already present. -/
def insertU (l : List Nat) (x : Nat) : List Nat :=
  if l.contains x then l else l ++ [x]

/-- `HashMap::insert` for the pid-to-icon map: replace or append. -/
def iinsert (m : List (Nat × String)) (k : Nat) (v : String) : List (Nat × String) :=
  if (m.find? (fun e => e.1 == k)).isSome then
    m.map (fun e => if e.1 == k then (k, v) else e)
  else
    m ++ [(k, v)]

/-- Option-valued map over a list: `some` of the image when every element
succeeds, `none` as soon as one fails (models a loop whose body may hit
the fuel bound). -/
def mapOpt (f : α → Option β) : List α → Option (List β)
  | [] => some []
  | a :: as =>
    match f a, mapOpt f as with
    | some b, some bs => some (b :: bs)
    | _, _ => none

/-! ### Filter pipeline (`table_view/mod.rs`, `configure_filter`) -/

/-- Rust `str::to_lowercase` on the character-list view of a string. -/
def to_lower (s : List Char) : List Char := s.map Char.toLower

/-- Rust `str::contains(needle)`: the needle occurs as a contiguous
substring of the haystack. -/
def contains_sub (hay needle : List Char) : Bool := decide (needle <:+: hay)

/-- Modelled from the spec: Levenshtein edit distance of the
`textdistance` crate (`Levenshtein::default().for_str(a, b)`), which is
not part of `src/`.  The classic recurrence, made structurally recursive
on a fuel argument so that it reduces inside the kernel; every recursive
call shrinks the combined length by at least one while consuming one
unit of fuel, so with fuel = |xs| + |ys| the zero-fuel case is never
reached. -/
def levF : Nat → List Char → List Char → Nat
  | _, [], ys => ys.length
  | _, xs, [] => xs.length
  | 0, _, _ => 0
  | fuel+1, x :: xs, y :: ys =>
    if x = y then levF fuel xs ys
    else 1 + min (levF fuel xs ys) (min (levF fuel (x :: xs) ys) (levF fuel xs (y :: ys)))

/-- Levenshtein distance between two character lists. -/
def lev (xs ys : List Char) : Nat := levF (xs.length + ys.length) xs ys

/-- Modelled from the spec: the normalized edit-distance test
`ndist() <= 0.6`, i.e. Levenshtein distance divided by the maximum
length is at most 6/10, stated over the rational value without floats. -/
def ndist_le_06 (a b : List Char) : Bool :=
  decide (10 * lev a b ≤ 6 * max a.length b.length)

/-- State of the search UI read by the filter closure: whether the search
button is active and the text of the search entry. -/
structure SearchState where
  search_active : Bool
  query : String
deriving Repr

/-- The `search` closure of `configure_filter`: pass-through unless
search is active with a non-empty query; Section-Header rows always
pass; otherwise substring matches in all four directions and the
normalized-edit-distance test, in source order. -/
def search_filter (st : SearchState) (row : RowModel) : Bool :=
  if !st.search_active then true
  else if st.query.data.isEmpty then true
  else if row.content_type == ContentType.sectionHeader then true
  else
    let entry_name := to_lower row.name.data
    let pid := (toString row.pid).data
    let search_query := to_lower st.query.data
    if contains_sub entry_name search_query || contains_sub pid search_query then true
    else if contains_sub search_query entry_name || contains_sub search_query pid then true
    else if ndist_le_06 entry_name search_query then true
    else false

/-- Claim C5 as stated: when search is enabled with a non-empty query and
the node is not a section header, the node passes iff one of the four
substring relations or the normalized-edit-distance bound holds;
otherwise it always passes. -/
def search_matches_spec (st : SearchState) (row : RowModel) : Bool :=
  if st.search_active && !st.query.data.isEmpty
      && !(row.content_type == ContentType.sectionHeader) then
    let entry_name := to_lower row.name.data
    let pid := (toString row.pid).data
    let q := to_lower st.query.data
    contains_sub entry_name q || contains_sub q entry_name
      || contains_sub pid q || contains_sub q pid
      || ndist_le_06 entry_name q
  else
    true

/-- Activation state of the four category-filter toggle buttons of the
services page (`toggle_running`, `toggle_failed`, `toggle_stopped`,
`toggle_disabled`). -/
structure Toggles where
  running_active : Bool := false
  failed_active : Bool := false
  stopped_active : Bool := false
  disabled_active : Bool := false
deriving Repr, DecidableEq

/-- The `filter` closure of `configure_filter`: pass-through when no
toggle group was supplied; Section-Header rows always pass; if every
toggle is inactive every row passes; otherwise a row is visible iff some
active toggle's predicate holds of the row's stored service state.  The
widget-name dispatch over the fixed four-button group is modelled by the
four named fields. -/
def category_filter (group : Option Toggles) (row : RowModel) : Bool :=
  match group with
  | none => true
  | some g =>
    if row.content_type == ContentType.sectionHeader then true
    else if !g.running_active && !g.failed_active
        && !g.stopped_active && !g.disabled_active then true
    else
      (g.running_active && row.core.service_running)
        || (g.failed_active && row.core.service_failed)
        || (g.stopped_active && row.core.service_stopped)
        || (g.disabled_active && !row.core.service_enabled
            && !row.core.service_running && !row.core.service_failed)

/-- The combined filter of `configure_filter`: `search() && filter()`. -/
def effective_filter (st : SearchState) (group : Option Toggles) (row : RowModel) : Bool :=
  search_filter st row && category_filter group row

/-! ### Persisted sort restoration (`table_view/settings.rs`,
`configure_sorting`) -/

/-- `gtk::SortType` as used by `sort_by_column`. -/
inductive SortType where
  | ascending
  | descending
deriving Repr, DecidableEq

/-- Outcome of `configure_sorting`: either no sort is applied (early
return) or `sort_by_column` is invoked with the matched column (if any)
and a direction. -/
inductive SortAction where
  | noSort
  | sortBy (col : Option Nat) (dir : SortType)
deriving Repr, DecidableEq

/-- The column-matching loop of `configure_sorting`: index of the first
column whose (optional) persistent id equals the saved id; columns
without an id are skipped. -/
def match_column (saved_id : String) (columns : List (Option String)) : Option Nat :=
  (columns.enum.find? (fun c =>
    match c.2 with
    | some i => i == saved_id
    | none => false)).map (·.1)

/-- `configure_sorting`, with the GTK ffi constants inlined
(`GTK_SORT_ASCENDING = 0`, `GTK_SORT_DESCENDING = 1`): when the
remember-sorting preference is off the function resets the stored keys
and returns without sorting; otherwise the persisted order value selects
the direction, `255` (the none-meaning-unset sentinel) returns without
sorting, and any other unknown value logs a diagnostic and falls back to
ascending order. -/
def configure_sorting (remember : Bool) (saved_id : String) (order : Int)
    (columns : List (Option String)) : SortAction :=
  if !remember then
    SortAction.noSort
  else
    let matched := match_column saved_id columns
    if order == 0 then SortAction.sortBy matched SortType.ascending
    else if order == 1 then SortAction.sortBy matched SortType.descending
    else if order == 255 then SortAction.noSort
    else SortAction.sortBy matched SortType.ascending

/-! ### Grouping resolver (`table_view/models.rs`, `primary_processes`) -/

/-- Inner loop of the secondary-pid computation: walk a process's child
pids and insert into the accumulator those that are also app pids. -/
def add_children (pids : List Nat) : List Nat → List Nat → List Nat
  | acc, [] => acc
  | acc, c :: cs =>
    add_children pids (if pids.contains c then insertU acc c else acc) cs

/-- First loop of `primary_processes`: a pid is secondary when it is
listed as a child of an app pid that is present in the process table. -/
def secondary_loop (app : App) (pm : List Process) : List Nat → List Nat → List Nat
  | acc, [] => acc
  | acc, app_pid :: rest =>
    let acc' := match pfind pm app_pid with
      | some process => add_children app.pids acc process.children
      | none => acc
    secondary_loop app pm acc' rest

/-- Second loop of `primary_processes`: app pids not marked secondary. -/
def primary_loop (secondary : List Nat) : List Nat → List Nat → List Nat
  | acc, [] => acc
  | acc, app_pid :: rest =>
    primary_loop secondary
      (if !secondary.contains app_pid then insertU acc app_pid else acc) rest

/-- Fallback loop of `primary_processes`, written by structural recursion
on the remaining pid list: the source iterates with `enumerate` and
breaks on the first hit, where `index == app.pids.len() - 1` is exactly
the case of a singleton remainder.  A pid is picked when the process
table has it and it either has children or sits at the last index. -/
def fallback_loop (pm : List Process) : List Nat → List Nat
  | [] => []
  | [p] =>
    match pfind pm p with
    | some _ => [p]
    | none => []
  | p :: q :: rest =>
    match pfind pm p with
    | some process =>
      if process.children.length > 0 then [p] else fallback_loop pm (q :: rest)
    | none => fallback_loop pm (q :: rest)

/-- `primary_processes`: primary = app pids minus secondary pids, with
the fallback scan when that difference is empty. -/
def primary_processes (app : App) (pm : List Process) : List Nat :=
  let secondary_processes := secondary_loop app pm [] app.pids
  let primary := primary_loop secondary_processes [] app.pids
  if primary.isEmpty then fallback_loop pm app.pids else primary

/-- Claim C3's secondary notion: the pid is listed as a child of another
pid that is also in the app's pid set. -/
def secondary_spec (app : App) (pm : List Process) (x : Nat) : Bool :=
  app.pids.any (fun q =>
    !(q == x) &&
      (match pfind pm q with
       | some process => process.children.contains x
       | none => false))

/-- Claim C3's fallback qualifier: the pid has children (in the process
table). -/
def has_children_spec (pm : List Process) (x : Nat) : Bool :=
  match pfind pm x with
  | some process => !process.children.isEmpty
  | none => false

/-- Claim C3's fallback scan: the first app pid, in original order, that
either has children or is the last pid of the list; empty when none
match. -/
def fallback_spec (pm : List Process) : List Nat → List Nat
  | [] => []
  | [p] => [p]
  | p :: q :: rest =>
    if has_children_spec pm p then [p] else fallback_spec pm (q :: rest)

/-- Claim C3 as stated: (app pids) minus (secondary pids), with the
fallback scan when the difference is empty. -/
def primary_processes_spec (app : App) (pm : List Process) : List Nat :=
  let primary := app.pids.filter (fun x => !secondary_spec app pm x)
  if primary.isEmpty then fallback_spec pm app.pids else primary

/-! ### Aggregator -/

/-- Modelled from the spec: merged usage statistics
(`Process::merged_usage_stats` of the `magpie_types` crate, not part of
`src/`): a process's own stats summed field-wise with the merged stats
of every descendant along the process table's child links.  The fuel
bounds the recursion depth; `pm.length` suffices on the forest-shaped
tables the data model guarantees. -/
def merged_aux (pm : List Process) : Nat → Process → ProcessUsageStats
  | 0, p => p.usage_stats
  | fuel+1, p =>
    p.children.foldl (fun acc c =>
      match pfind pm c with
      | some cp => acc.merge (merged_aux pm fuel cp)
      | none => acc) p.usage_stats

/-- Entry point matching the source call shape
`process.merged_usage_stats(&process_map)`. -/
def Process.merged_usage_stats (p : Process) (pm : List Process) : ProcessUsageStats :=
  merged_aux pm pm.length p

/-! ### Reconciler (`table_view/models.rs`) -/

/-- `set_stats`: copy the seven numeric stat fields onto the node. -/
def set_stats (row : RowModel) (usage_stats : ProcessUsageStats) : RowModel :=
  row.withCore { row.core with stats := usage_stats }

/-- `service_icon`: icon name derived from the service state booleans. -/
def service_icon (service : Service) : String :=
  if service.running then "service-running"
  else if service.failed then "service-failed"
  else if service.enabled then "service-stopped"
  else "service-disabled"

/-- `set_service`: copy the service state booleans onto the node; the
stored `service_stopped` is the derived `!running && !failed && enabled`. -/
def set_service (row : RowModel) (service : Service) : RowModel :=
  row.withCore { row.core with
    service_running := service.running,
    service_enabled := service.enabled,
    service_failed := service.failed,
    service_stopped := !service.running && !service.failed && service.enabled }

/-- Rust `split_ascii_whitespace().next()`: the first whitespace-free
token, or none when the string has no such token. -/
def first_token (s : String) : Option String :=
  ((s.split (fun c => c.isWhitespace)).filter (fun t => !t.isEmpty)).head?

/-- The display-name derivation inlined in `update_processes` for newly
created process rows (lines 134-166 of `models.rs`). -/
def pretty_name (process : Process) : String :=
  if process.exe.isEmpty then
    match process.cmd.head? with
    | some cmd0 =>
      let cmd := match (first_token cmd0).bind (fun s => (s.splitOn "/").getLast?) with
        | some s => s
        | none => process.name
      let cmd := if cmd.endsWith ":" then cmd.dropRight 1 else cmd
      cmd.trim
    | none => process.name.trim
  else
    let exe_name := (process.exe.splitOn "/").getLast?.getD process.name
    if exe_name.startsWith "wine" then
      match process.cmd.head? with
      | none => process.name.trim
      | some cmd0 =>
        ((((cmd0.splitOn "\\").getLast?.getD process.name).splitOn
          "/").getLast?.getD process.name).trim
    else
      exe_name.trim

/-- The `RowModelBuilder` chain used for newly sighted processes. -/
def build_process_row (sect : SectionType) (process : Process) : RowModel :=
  RowModel.mk
    { content_type := .process, section_type := sect,
      id := toString process.pid, pid := process.pid,
      name := pretty_name process,
      command_line := " ".intercalate process.cmd } []

/-- The icon shadowing at the top of `update_process`: the app icon
recorded for this pid, if any, else the inherited icon. -/
def proc_icon (app_icons : List (Nat × String)) (icon : String) (process : Process) :
    String :=
  match ilookup app_icons process.pid with
  | some i => i
  | none => icon

/-- The scalar-field mutations of `update_process`: set the icon, copy
the (raw or merged) usage stats, and copy the parent service's state
when reconciling underneath a service. -/
def apply_process_fields (pm : List Process) (process : Process)
    (app_icons : List (Nat × String)) (icon : String) (use_merged_stats : Bool)
    (parent_service : Option Service) (row : RowModel) : RowModel :=
  let usage_stats :=
    if use_merged_stats then process.merged_usage_stats pm else process.usage_stats
  let row := row.withCore { row.core with icon := proc_icon app_icons icon process }
  let row := set_stats row usage_stats
  match parent_service with
  | some psvc => set_service row psvc
  | none => row

/-- `update_process` body, parameterized by the recursive call into
`update_processes` on the row's children (the scalar mutations precede
the recursion in the source and do not touch the child list, so the two
are composed here); the write-only `model_map` out-parameter of the
source (only ever inserted into by this call tree) is not modelled. -/
def update_process_core
    (recurse : List Nat → List RowModel → List (Nat × String) → String → Bool →
      SectionType → Option Service → Option (List RowModel))
    (pm : List Process) (process : Process) (row : RowModel)
    (app_icons : List (Nat × String)) (icon : String) (use_merged_stats : Bool)
    (sect : SectionType) (parent_service : Option Service) : Option RowModel :=
  match recurse process.children row.children app_icons
      (proc_icon app_icons icon process) use_merged_stats sect parent_service with
  | some children =>
    some ((apply_process_fields pm process app_icons icon use_merged_stats
      parent_service row).withChildren children)
  | none => none

/-- The `does_exist` set accumulated by phase 1 of `update_processes`:
pids of existing rows that are both requested and in the table. -/
def procs_seen (pm : List Process) (pids : List Nat) (list : List RowModel) :
    List Nat :=
  list.filterMap (fun r =>
    if pids.contains r.pid && (pfind pm r.pid).isSome then some r.pid else none)

/-- The `has_died` set accumulated by phase 1 of `update_processes`:
pids of existing rows that are no longer requested or not in the table. -/
def procs_dead (pm : List Process) (pids : List Nat) (list : List RowModel) :
    List Nat :=
  list.filterMap (fun r =>
    if pids.contains r.pid && (pfind pm r.pid).isSome then none else some r.pid)

/-- Phase 1 body of `update_processes` for one existing row: update it
in place when its pid is both requested and present in the table,
otherwise leave it untouched (it is marked dead and removed later). -/
def upd_process_row
    (recurse : List Nat → List RowModel → List (Nat × String) → String → Bool →
      SectionType → Option Service → Option (List RowModel))
    (pm : List Process) (pids : List Nat) (app_icons : List (Nat × String))
    (icon : String) (use_merged_stats : Bool) (sect : SectionType)
    (parent_service : Option Service) (r : RowModel) : Option RowModel :=
  if pids.contains r.pid then
    match pfind pm r.pid with
    | some process =>
      update_process_core recurse pm process r app_icons icon use_merged_stats
        sect parent_service
    | none => some r
  else some r

/-- `update_processes`: the per-kind three-way diff for process rows,
with explicit fuel for the recursion through the child links.  Phase 1
updates surviving rows in place, phase 2 removes dead rows, phase 3
creates, appends and populates rows for newly sighted pids. -/
def update_processes : Nat → List Process → List Nat → List RowModel →
    List (Nat × String) → String → Bool → SectionType → Option Service →
    Option (List RowModel)
  | 0, _, _, _, _, _, _, _, _ => none
  | fuel+1, pm, pids, list, app_icons, icon, use_merged_stats, sect, parent_service =>
    let recurse := update_processes fuel pm
    match mapOpt (upd_process_row recurse pm pids app_icons icon use_merged_stats
        sect parent_service) list with
    | none => none
    | some rows =>
      let kept := rows.filter (fun r => !(procs_dead pm pids list).contains r.pid)
      match mapOpt (fun process =>
          update_process_core recurse pm process (build_process_row sect process)
            app_icons icon use_merged_stats sect parent_service)
        ((pids.filter (fun p => !(procs_seen pm pids list).contains p)).filterMap
          (pfind pm)) with
      | none => none
      | some new_rows => some (kept ++ new_rows)

/-- `update_process` as a standalone entry, consuming fuel through the
recursive `update_processes` call exactly as the source does. -/
def update_process (fuel : Nat) (pm : List Process) (process : Process)
    (row : RowModel) (app_icons : List (Nat × String)) (icon : String)
    (use_merged_stats : Bool) (sect : SectionType)
    (parent_service : Option Service) : Option RowModel :=
  update_process_core (update_processes fuel pm) pm process row app_icons icon
    use_merged_stats sect parent_service

/-- The unconditional scalar-field mutations at the top of
`update_service`: copy the service state, set the state icon, and mirror
pid, user and group into the row (absent optionals become defaults). -/
def apply_service_fields (service : Service) (row : RowModel) : RowModel :=
  let row := set_service row service
  let row := row.withCore { row.core with icon := service_icon service }
  row.withCore { row.core with
    pid := service.pid.getD 0,
    user := service.user.getD "",
    group := service.group.getD "" }

/-- The stats copy of `update_service` for a service with an owning pid:
the merged stats of the owning process when the table has it, otherwise
the stats are left as they were. -/
def apply_service_stats (pm : List Process) (pid : Nat) (row : RowModel) : RowModel :=
  match pfind pm pid with
  | some process => set_stats row (process.merged_usage_stats pm)
  | none => row

/-- `update_service`: copy the service fields, set the icon, mirror the
owning pid into the row, and reconcile the single process child (the
subtree is cleared entirely when the service has no pid). -/
def update_service (fuel : Nat) (pm : List Process) (row : RowModel)
    (service : Service) (app_icons : List (Nat × String)) (icon : String)
    (use_merged_stats : Bool) : Option RowModel :=
  let row := apply_service_fields service row
  match service.pid with
  | some pid =>
    let row := apply_service_stats pm pid row
    let app_children := row.children.filter (fun child => child.pid == pid)
    match update_processes fuel pm [pid] app_children app_icons icon
        use_merged_stats row.section_type (some service) with
    | some children => some (row.withChildren children)
    | none => none
  | none => some (row.withChildren [])

/-- Phase 1 of `update_services`: update every row whose service id is
still in the snapshot, leave the rest untouched (they are marked dead
and removed afterwards). -/
def upd_service_rows (fuel : Nat) (pm : List Process) (services : List Service)
    (app_icons : List (Nat × String)) (icon : String) (use_merged_stats : Bool) :
    List RowModel → Option (List RowModel)
  | [] => some []
  | r :: rs =>
    match sfind services r.service_id with
    | some service =>
      match update_service fuel pm r service app_icons icon use_merged_stats with
      | some r' =>
        (upd_service_rows fuel pm services app_icons icon use_merged_stats rs).map
          (r' :: ·)
      | none => none
    | none =>
      (upd_service_rows fuel pm services app_icons icon use_merged_stats rs).map
        (r :: ·)

/-- The `RowModelBuilder` chain used for newly sighted services. -/
def build_service_row (sect : SectionType) (service : Service) : RowModel :=
  RowModel.mk
    { id := toString service.id, content_type := .service, section_type := sect,
      service_id := service.id, name := service.name,
      file_path := service.file_path,
      user := service.user.getD "", group := service.group.getD "" } []

/-- The `does_exist` set of `update_services`. -/
def svcs_seen (services : List Service) (list : List RowModel) : List Nat :=
  list.filterMap (fun r =>
    if (sfind services r.service_id).isSome then some r.service_id else none)

/-- The `has_died` set of `update_services`. -/
def svcs_dead (services : List Service) (list : List RowModel) : List Nat :=
  list.filterMap (fun r =>
    if (sfind services r.service_id).isSome then none else some r.service_id)

/-- `update_services`: the three-way diff for service rows. -/
def update_services (fuel : Nat) (pm : List Process) (services : List Service)
    (list : List RowModel) (app_icons : List (Nat × String)) (icon : String)
    (use_merged_stats : Bool) (sect : SectionType) : Option (List RowModel) :=
  match upd_service_rows fuel pm services app_icons icon use_merged_stats list with
  | none => none
  | some rows =>
    let kept := rows.filter (fun r => !(svcs_dead services list).contains r.service_id)
    match mapOpt (fun service =>
        update_service fuel pm (build_service_row sect service) service app_icons
          icon use_merged_stats)
      (services.filter (fun s => !(svcs_seen services list).contains s.id)) with
    | none => none
    | some new_rows => some (kept ++ new_rows)

/-- `update_app`: resolve the app's primary pids; on an empty result
clear the children and return early (a recoverable diagnostic is logged);
otherwise set the icon, diff the children against the primary set,
borrow already-materialized process rows from `process_model_map` for
newly seen primaries, accumulate merged stats and record the app icon
for each primary pid, and finally overwrite the row's stats. -/
def update_app (app : App) (pm : List Process)
    (process_model_map : List (Nat × RowModel))
    (app_icons : List (Nat × String)) (row : RowModel) :
    RowModel × List (Nat × String) :=
  let primary := primary_processes app pm
  if primary.isEmpty then
    (row.withChildren [], app_icons)
  else
    let icon := match app.icon with
      | some i =>
        match i with
        | some (Icon.path p) => p
        | some (Icon.id s) => s
        | none => "application-x-executable"
      | none => "application-x-executable"
    let row := row.withCore { row.core with icon := icon }
    let has_died := row.children.filterMap (fun c =>
      if primary.contains c.pid then none else some c.pid)
    let does_exist := row.children.filterMap (fun c =>
      if primary.contains c.pid then some c.pid else none)
    let children := row.children.filter (fun c => !has_died.contains c.pid)
    let step := fun (acc : ProcessUsageStats × List (Nat × String) × List RowModel)
        (process : Process) =>
      let usage := acc.1.merge (process.merged_usage_stats pm)
      let icons := iinsert acc.2.1 process.pid icon
      let ch :=
        if does_exist.contains process.pid then acc.2.2
        else
          match mlookup process_model_map process.pid with
          | some m => acc.2.2 ++ [m]
          | none => acc.2.2
      (usage, icons, ch)
    let res := (primary.filterMap (pfind pm)).foldl step ({}, app_icons, children)
    (set_stats (row.withChildren res.2.2) res.1, res.2.1)

/-- Phase 1 of `update_apps`, threading the `app_icons` accumulator in
iteration order. -/
def upd_app_rows (app_map : List App) (pm : List Process)
    (process_model_map : List (Nat × RowModel)) :
    List RowModel → List (Nat × String) → List RowModel × List (Nat × String)
  | [], app_icons => ([], app_icons)
  | r :: rs, app_icons =>
    match afind app_map r.id with
    | some app =>
      let res := update_app app pm process_model_map app_icons r
      let rest := upd_app_rows app_map pm process_model_map rs res.2
      (res.1 :: rest.1, rest.2)
    | none =>
      let rest := upd_app_rows app_map pm process_model_map rs app_icons
      (r :: rest.1, rest.2)

/-- Phase 3 of `update_apps`: build, append and populate a row for every
newly sighted app. -/
def new_app_rows (pm : List Process) (process_model_map : List (Nat × RowModel)) :
    List App → List (Nat × String) → List RowModel × List (Nat × String)
  | [], app_icons => ([], app_icons)
  | app :: rest, app_icons =>
    let row := RowModel.mk
      { content_type := .app, section_type := .firstSection,
        id := app.id, name := app.name } []
    let res := update_app app pm process_model_map app_icons row
    let more := new_app_rows pm process_model_map rest res.2
    (res.1 :: more.1, more.2)

/-- The `does_exist` set of `update_apps`. -/
def apps_seen (app_map : List App) (list : List RowModel) : List String :=
  list.filterMap (fun r =>
    if (afind app_map r.id).isSome then some r.id else none)

/-- The `has_died` set of `update_apps`. -/
def apps_dead (app_map : List App) (list : List RowModel) : List String :=
  list.filterMap (fun r =>
    if (afind app_map r.id).isSome then none else some r.id)

/-- `update_apps`: the three-way diff for app rows.  The `app_icons`
out-parameter is cleared on entry, so the accumulation starts empty. -/
def update_apps (app_map : List App) (pm : List Process)
    (process_model_map : List (Nat × RowModel)) (list : List RowModel) :
    List RowModel × List (Nat × String) :=
  let stage := upd_app_rows app_map pm process_model_map list []
  let kept := stage.1.filter (fun r => !(apps_dead app_map list).contains r.id)
  let fresh := app_map.filter (fun a => !(apps_seen app_map list).contains a.id)
  let created := new_app_rows pm process_model_map fresh stage.2
  (kept ++ created.1, created.2)

/-! ### Basic lemmas about the embedding -/

@[simp]
theorem RowModel.core_mk (c : RowCore) (cs : List RowModel) :
    (RowModel.mk c cs).core = c := rfl

@[simp]
theorem RowModel.children_mk (c : RowCore) (cs : List RowModel) :
    (RowModel.mk c cs).children = cs := rfl

@[simp]
theorem RowModel.core_withCore (r : RowModel) (c : RowCore) :
    (r.withCore c).core = c := by cases r; rfl

@[simp]
theorem RowModel.children_withCore (r : RowModel) (c : RowCore) :
    (r.withCore c).children = r.children := by cases r; rfl

@[simp]
theorem RowModel.core_withChildren (r : RowModel) (cs : List RowModel) :
    (r.withChildren cs).core = r.core := by cases r; rfl

@[simp]
theorem RowModel.children_withChildren (r : RowModel) (cs : List RowModel) :
    (r.withChildren cs).children = cs := by cases r; rfl

@[simp]
theorem RowModel.ref_def (r : RowModel) : r.ref_ = r.core.ref_ := rfl

@[simp]
theorem RowModel.id_def (r : RowModel) : r.id = r.core.id := rfl

@[simp]
theorem RowModel.pid_def (r : RowModel) : r.pid = r.core.pid := rfl

@[simp]
theorem RowModel.service_id_def (r : RowModel) : r.service_id = r.core.service_id := rfl

@[simp]
theorem RowModel.name_def (r : RowModel) : r.name = r.core.name := rfl

@[simp]
theorem RowModel.content_type_def (r : RowModel) :
    r.content_type = r.core.content_type := rfl

@[simp]
theorem RowModel.section_type_def (r : RowModel) :
    r.section_type = r.core.section_type := rfl

theorem mem_insertU {l : List Nat} {x y : Nat} :
    x ∈ insertU l y ↔ x ∈ l ∨ x = y := by
  unfold insertU
  split
  · next h =>
    constructor
    · exact Or.inl
    · rintro (hx | rfl)
      · exact hx
      · exact List.elem_iff.mp h
  · simp [List.mem_append]

theorem mapOpt_forall₂ {f : α → Option β} :
    ∀ {l : List α} {l' : List β}, mapOpt f l = some l' →
      List.Forall₂ (fun a b => f a = some b) l l'
  | [], l', h => by
    simp only [mapOpt] at h
    cases h
    exact List.Forall₂.nil
  | a :: as, l', h => by
    simp only [mapOpt] at h
    cases hfa : f a with
    | none => rw [hfa] at h; exact absurd h (by simp)
    | some b =>
      rw [hfa] at h
      cases hrest : mapOpt f as with
      | none => rw [hrest] at h; exact absurd h (by simp)
      | some bs =>
        rw [hrest] at h
        cases h
        exact List.Forall₂.cons hfa (mapOpt_forall₂ hrest)

theorem mapOpt_isSome {f : α → Option β} :
    ∀ {l : List α}, (∀ a ∈ l, (f a).isSome) → (mapOpt f l).isSome
  | [], _ => by simp [mapOpt]
  | a :: as, h => by
    have ha := h a (by simp)
    have has : (mapOpt f as).isSome := mapOpt_isSome (fun x hx => h x (by simp [hx]))
    simp only [mapOpt]
    cases hfa : f a with
    | none => rw [hfa] at ha; simp at ha
    | some b =>
      cases hrest : mapOpt f as with
      | none => rw [hrest] at has; simp at has
      | some bs => simp

theorem forall₂_mem_left {R : α → β → Prop} :
    ∀ {l₁ : List α} {l₂ : List β}, List.Forall₂ R l₁ l₂ → ∀ a ∈ l₁, ∃ b ∈ l₂, R a b := by
  intro l₁ l₂ h
  induction h with
  | nil => intro a ha; cases ha
  | cons hR _ ih =>
    intro a ha
    rcases List.mem_cons.mp ha with rfl | ha
    · exact ⟨_, by simp, hR⟩
    · obtain ⟨b, hb, hRb⟩ := ih a ha
      exact ⟨b, by simp [hb], hRb⟩

theorem forall₂_mem_right {R : α → β → Prop} :
    ∀ {l₁ : List α} {l₂ : List β}, List.Forall₂ R l₁ l₂ → ∀ b ∈ l₂, ∃ a ∈ l₁, R a b := by
  intro l₁ l₂ h
  induction h with
  | nil => intro b hb; cases hb
  | cons hR _ ih =>
    intro b hb
    rcases List.mem_cons.mp hb with rfl | hb
    · exact ⟨_, by simp, hR⟩
    · obtain ⟨a, ha, hRa⟩ := ih b hb
      exact ⟨a, by simp [ha], hRa⟩

/-- Filtering by a predicate that is transported by a pointwise relation,
then projecting, gives the same result on related lists. -/
theorem forall₂_filter_map {R : α → α → Prop} (f : α → β) (p : α → Bool)
    (hf : ∀ a b, R a b → f b = f a) (hp : ∀ a b, R a b → p b = p a) :
    ∀ {l₁ l₂ : List α}, List.Forall₂ R l₁ l₂ →
      (l₂.filter p).map f = (l₁.filter p).map f := by
  intro l₁ l₂ h
  induction h with
  | nil => rfl
  | cons hR hrest ih =>
    rename_i a b l₁' l₂'
    have hpb : p b = p a := hp a b hR
    by_cases hpa : p a = true
    · rw [List.filter_cons_of_pos (by rw [hpb]; exact hpa), List.filter_cons_of_pos hpa]
      simp only [List.map_cons, ih, hf a b hR]
    · rw [List.filter_cons_of_neg (by rw [hpb]; simpa using hpa),
        List.filter_cons_of_neg (by simpa using hpa)]
      exact ih

theorem filter_filter_of_imp {l : List α} {b q : α → Bool}
    (h : ∀ r ∈ l, b r = true → q r = true) :
    (l.filter q).filter b = l.filter b := by
  induction l with
  | nil => rfl
  | cons a tl ih =>
    have ih' := ih (fun r hr => h r (by simp [hr]))
    by_cases hq : q a = true
    · rw [List.filter_cons_of_pos hq]
      by_cases hb : b a = true
      · rw [List.filter_cons_of_pos hb, List.filter_cons_of_pos hb, ih']
      · rw [List.filter_cons_of_neg (by simpa using hb),
          List.filter_cons_of_neg (by simpa using hb), ih']
    · have hb : ¬ b a = true := fun hc => hq (h a (by simp) hc)
      rw [List.filter_cons_of_neg (by simpa using hq),
        List.filter_cons_of_neg (by simpa using hb), ih']

theorem pfind_some {pm : List Process} {p : Nat} {proc : Process}
    (h : pfind pm p = some proc) : proc ∈ pm ∧ proc.pid = p := by
  refine ⟨List.mem_of_find?_eq_some h, ?_⟩
  have := List.find?_some h
  simpa using this

theorem sfind_some {sm : List Service} {k : Nat} {svc : Service}
    (h : sfind sm k = some svc) : svc ∈ sm ∧ svc.id = k := by
  refine ⟨List.mem_of_find?_eq_some h, ?_⟩
  have := List.find?_some h
  simpa using this

theorem afind_some {am : List App} {k : String} {a : App}
    (h : afind am k = some a) : a ∈ am ∧ a.id = k := by
  refine ⟨List.mem_of_find?_eq_some h, ?_⟩
  have := List.find?_some h
  simpa using this

theorem afind_isSome_of_mem {am : List App} {a : App} (ha : a ∈ am) :
    (afind am a.id).isSome := by
  rw [afind, List.find?_isSome]
  exact ⟨a, ha, by simp⟩

/-! ### Field-preservation lemmas: the update functions mutate field
values only, never a node's allocation token or identity key -/

theorem apply_process_fields_core (pm : List Process) (process : Process)
    (icons : List (Nat × String)) (icon : String) (mg : Bool) (ps : Option Service)
    (row : RowModel) :
    (apply_process_fields pm process icons icon mg ps row).core.ref_ = row.core.ref_
      ∧ (apply_process_fields pm process icons icon mg ps row).core.pid = row.core.pid
      ∧ (apply_process_fields pm process icons icon mg ps row).core.id = row.core.id
      ∧ (apply_process_fields pm process icons icon mg ps row).core.stats
          = (if mg then process.merged_usage_stats pm else process.usage_stats)
      ∧ (apply_process_fields pm process icons icon mg ps row).children
          = row.children := by
  obtain ⟨c, cs⟩ := row
  cases ps
  · exact ⟨rfl, rfl, rfl, rfl, rfl⟩
  · exact ⟨rfl, rfl, rfl, rfl, rfl⟩

theorem update_process_core_fields {rec} {pm : List Process} {process : Process}
    {row : RowModel} {icons : List (Nat × String)} {icon : String} {mg : Bool}
    {sect : SectionType} {ps : Option Service} {out : RowModel}
    (h : update_process_core rec pm process row icons icon mg sect ps = some out) :
    out.core.ref_ = row.core.ref_ ∧ out.core.pid = row.core.pid
      ∧ out.core.id = row.core.id
      ∧ out.core.stats
          = (if mg then process.merged_usage_stats pm else process.usage_stats) := by
  unfold update_process_core at h
  split at h
  · next ch hch =>
    cases h
    have hf := apply_process_fields_core pm process icons icon mg ps row
    simp only [RowModel.core_withChildren]
    exact ⟨hf.1, hf.2.1, hf.2.2.1, hf.2.2.2.1⟩
  · exact absurd h (by simp)

theorem upd_process_row_fields {rec} {pm : List Process} {pids : List Nat}
    {icons : List (Nat × String)} {icon : String} {mg : Bool} {sect : SectionType}
    {ps : Option Service} {r out : RowModel}
    (h : upd_process_row rec pm pids icons icon mg sect ps r = some out) :
    out.core.ref_ = r.core.ref_ ∧ out.core.pid = r.core.pid := by
  unfold upd_process_row at h
  split at h
  · split at h
    · next process hp =>
      have := update_process_core_fields h
      exact ⟨this.1, this.2.1⟩
    · cases h; exact ⟨rfl, rfl⟩
  · cases h; exact ⟨rfl, rfl⟩

theorem update_app_fields (app : App) (pm : List Process)
    (pmm : List (Nat × RowModel)) (icons : List (Nat × String)) (row : RowModel) :
    (update_app app pm pmm icons row).1.core.ref_ = row.core.ref_
      ∧ (update_app app pm pmm icons row).1.core.id = row.core.id := by
  obtain ⟨c, cs⟩ := row
  by_cases hp : (primary_processes app pm).isEmpty = true
  · simp only [update_app, hp, if_true]
    exact ⟨rfl, rfl⟩
  · simp only [update_app, hp, if_false]
    exact ⟨rfl, rfl⟩

theorem apply_service_fields_core (service : Service) (row : RowModel) :
    (apply_service_fields service row).core.ref_ = row.core.ref_
      ∧ (apply_service_fields service row).core.service_id = row.core.service_id
      ∧ (apply_service_fields service row).children = row.children := by
  obtain ⟨c, cs⟩ := row
  exact ⟨rfl, rfl, rfl⟩

theorem apply_service_stats_core (pm : List Process) (pid : Nat) (row : RowModel) :
    (apply_service_stats pm pid row).core.ref_ = row.core.ref_
      ∧ (apply_service_stats pm pid row).core.service_id = row.core.service_id
      ∧ (apply_service_stats pm pid row).children = row.children := by
  obtain ⟨c, cs⟩ := row
  unfold apply_service_stats
  split
  · exact ⟨rfl, rfl, rfl⟩
  · exact ⟨rfl, rfl, rfl⟩

theorem update_service_fields {fuel : Nat} {pm : List Process} {row : RowModel}
    {svc : Service} {icons : List (Nat × String)} {icon : String} {mg : Bool}
    {out : RowModel}
    (h : update_service fuel pm row svc icons icon mg = some out) :
    out.core.ref_ = row.core.ref_ ∧ out.core.service_id = row.core.service_id := by
  have h1 := apply_service_fields_core svc row
  have h2 := apply_service_stats_core pm (svc.pid.getD 0) (apply_service_fields svc row)
  unfold update_service at h
  split at h
  · next pid hpid =>
    have h2' := apply_service_stats_core pm pid (apply_service_fields svc row)
    simp only at h
    split at h
    · next ch hch =>
      cases h
      simp only [RowModel.core_withChildren]
      exact ⟨h2'.1.trans h1.1, h2'.2.1.trans h1.2.1⟩
    · exact absurd h (by simp)
  · cases h
    simp only [RowModel.core_withChildren]
    exact ⟨h1.1, h1.2.1⟩

/-- Phase 1 of `update_apps` relates rows pointwise: same token, same
identity key. -/
theorem upd_app_rows_forall₂ (am : List App) (pm : List Process)
    (pmm : List (Nat × RowModel)) :
    ∀ (rows : List RowModel) (icons : List (Nat × String)),
      List.Forall₂ (fun a b => b.core.ref_ = a.core.ref_ ∧ b.core.id = a.core.id)
        rows (upd_app_rows am pm pmm rows icons).1
  | [], icons => by
    unfold upd_app_rows
    exact List.Forall₂.nil
  | r :: rs, icons => by
    unfold upd_app_rows
    split
    · next app happ =>
      exact List.Forall₂.cons (update_app_fields app pm pmm icons r)
        (upd_app_rows_forall₂ am pm pmm rs _)
    · exact List.Forall₂.cons ⟨rfl, rfl⟩ (upd_app_rows_forall₂ am pm pmm rs icons)

/-- Phase 1 of `update_services` relates rows pointwise: same token, same
identity key. -/
theorem upd_service_rows_forall₂ {fuel : Nat} {pm : List Process}
    {services : List Service} {icons : List (Nat × String)} {icon : String}
    {mg : Bool} :
    ∀ {rows out : List RowModel},
      upd_service_rows fuel pm services icons icon mg rows = some out →
      List.Forall₂
        (fun a b => b.core.ref_ = a.core.ref_ ∧ b.core.service_id = a.core.service_id)
        rows out
  | [], out, h => by
    unfold upd_service_rows at h
    cases h
    exact List.Forall₂.nil
  | r :: rs, out, h => by
    unfold upd_service_rows at h
    split at h
    · next svc hsvc =>
      split at h
      · next r' hr' =>
        cases hrest : upd_service_rows fuel pm services icons icon mg rs with
        | none => rw [hrest] at h; exact absurd h (by simp)
        | some rest =>
          rw [hrest] at h
          cases h
          exact List.Forall₂.cons (update_service_fields hr')
            (upd_service_rows_forall₂ hrest)
      · exact absurd h (by simp)
    · cases hrest : upd_service_rows fuel pm services icons icon mg rs with
      | none => rw [hrest] at h; exact absurd h (by simp)
      | some rest =>
        rw [hrest] at h
        cases h
        exact List.Forall₂.cons ⟨rfl, rfl⟩ (upd_service_rows_forall₂ hrest)

/-! ### Characterizations of the reconciliation results -/

theorem update_apps_fst (am : List App) (pm : List Process)
    (pmm : List (Nat × RowModel)) (list : List RowModel) :
    (update_apps am pm pmm list).1
      = (upd_app_rows am pm pmm list []).1.filter
          (fun r => !(apps_dead am list).contains r.id)
        ++ (new_app_rows pm pmm
            (am.filter (fun a => !(apps_seen am list).contains a.id))
            (upd_app_rows am pm pmm list []).2).1 := rfl

theorem update_processes_some {fuel : Nat} {pm : List Process} {pids : List Nat}
    {list : List RowModel} {icons : List (Nat × String)} {icon : String} {mg : Bool}
    {sect : SectionType} {ps : Option Service} {out : List RowModel}
    (h : update_processes (fuel + 1) pm pids list icons icon mg sect ps = some out) :
    ∃ rows new_rows,
      mapOpt (upd_process_row (update_processes fuel pm) pm pids icons icon mg sect ps)
        list = some rows
      ∧ mapOpt (fun process =>
          update_process_core (update_processes fuel pm) pm process
            (build_process_row sect process) icons icon mg sect ps)
          ((pids.filter (fun p => !(procs_seen pm pids list).contains p)).filterMap
            (pfind pm)) = some new_rows
      ∧ out = rows.filter (fun r => !(procs_dead pm pids list).contains r.pid)
          ++ new_rows := by
  simp only [update_processes] at h
  split at h
  · exact absurd h (by simp)
  · next rows hrows =>
    split at h
    · exact absurd h (by simp)
    · next new_rows hnews =>
      cases h
      exact ⟨rows, new_rows, hrows, hnews, rfl⟩

theorem update_services_some {fuel : Nat} {pm : List Process}
    {services : List Service} {list : List RowModel} {icons : List (Nat × String)}
    {icon : String} {mg : Bool} {sect : SectionType} {out : List RowModel}
    (h : update_services fuel pm services list icons icon mg sect = some out) :
    ∃ rows new_rows,
      upd_service_rows fuel pm services icons icon mg list = some rows
      ∧ mapOpt (fun service =>
          update_service fuel pm (build_service_row sect service) service icons
            icon mg)
          (services.filter (fun s => !(svcs_seen services list).contains s.id))
            = some new_rows
      ∧ out = rows.filter (fun r => !(svcs_dead services list).contains r.service_id)
          ++ new_rows := by
  unfold update_services at h
  split at h
  · exact absurd h (by simp)
  · next rows hrows =>
    split at h
    · exact absurd h (by simp)
    · next new_rows hnews =>
      cases h
      exact ⟨rows, new_rows, hrows, hnews, rfl⟩

/-! ### Membership in the seen / dead sets -/

theorem mem_procs_seen_of {pm : List Process} {pids : List Nat}
    {list : List RowModel} {r : RowModel} (hr : r ∈ list)
    (hc : pids.contains r.pid = true) (hs : (pfind pm r.pid).isSome = true) :
    r.pid ∈ procs_seen pm pids list := by
  unfold procs_seen
  exact List.mem_filterMap.mpr ⟨r, hr, by rw [if_pos (by rw [hc, hs]; rfl)]⟩

theorem not_mem_procs_dead {pm : List Process} {pids : List Nat}
    {list : List RowModel} {p : Nat}
    (hc : pids.contains p = true) (hs : (pfind pm p).isSome = true) :
    p ∉ procs_dead pm pids list := by
  intro hmem
  obtain ⟨r, _, hif⟩ := List.mem_filterMap.mp hmem
  by_cases hcond : (pids.contains r.pid && (pfind pm r.pid).isSome) = true
  · rw [if_pos hcond] at hif; cases hif
  · rw [if_neg hcond] at hif
    injection hif with h'
    rw [h'] at hcond
    exact hcond (by rw [hc, hs]; rfl)

theorem mem_apps_seen_of {am : List App} {list : List RowModel} {r : RowModel}
    (hr : r ∈ list) (hs : (afind am r.id).isSome = true) :
    r.id ∈ apps_seen am list := by
  unfold apps_seen
  exact List.mem_filterMap.mpr ⟨r, hr, by rw [if_pos hs]⟩

theorem not_mem_apps_dead {am : List App} {list : List RowModel} {k : String}
    (hs : (afind am k).isSome = true) : k ∉ apps_dead am list := by
  intro hmem
  obtain ⟨r, _, hif⟩ := List.mem_filterMap.mp hmem
  by_cases hcond : (afind am r.id).isSome = true
  · rw [if_pos hcond] at hif; cases hif
  · rw [if_neg hcond] at hif
    injection hif with h'
    rw [h'] at hcond
    exact hcond hs

theorem mem_svcs_seen_of {services : List Service} {list : List RowModel}
    {r : RowModel} (hr : r ∈ list)
    (hs : (sfind services r.service_id).isSome = true) :
    r.service_id ∈ svcs_seen services list := by
  unfold svcs_seen
  exact List.mem_filterMap.mpr ⟨r, hr, by rw [if_pos hs]⟩

theorem not_mem_svcs_dead {services : List Service} {list : List RowModel} {k : Nat}
    (hs : (sfind services k).isSome = true) : k ∉ svcs_dead services list := by
  intro hmem
  obtain ⟨r, _, hif⟩ := List.mem_filterMap.mp hmem
  by_cases hcond : (sfind services r.service_id).isSome = true
  · rw [if_pos hcond] at hif; cases hif
  · rw [if_neg hcond] at hif
    injection hif with h'
    rw [h'] at hcond
    exact hcond hs

/-- Newly created app rows carry the ids of the apps they were built
from. -/
theorem new_app_rows_forall₂ (pm : List Process) (pmm : List (Nat × RowModel)) :
    ∀ (apps : List App) (icons : List (Nat × String)),
      List.Forall₂ (fun (a : App) (b : RowModel) => b.id = a.id)
        apps (new_app_rows pm pmm apps icons).1
  | [], _ => by
    unfold new_app_rows
    exact List.Forall₂.nil
  | app :: rest, icons => by
    unfold new_app_rows
    refine List.Forall₂.cons ?_ (new_app_rows_forall₂ pm pmm rest _)
    exact (update_app_fields app pm pmm icons
      (RowModel.mk
        { content_type := .app, section_type := .firstSection,
          id := app.id, name := app.name } [])).2

/-- A boolean-negated contains test from non-membership. -/
theorem not_contains_of {α} [BEq α] [LawfulBEq α] {l : List α} {x : α} (h : x ∉ l) :
    (!l.contains x) = true := by
  simp [List.elem_iff, h]

/-- Identity stability for `update_apps`: rows whose app id survives in
the snapshot keep their allocation tokens, in order, with nothing added
or removed under that key. -/
theorem apps_stability {am : List App} {pm : List Process}
    {pmm : List (Nat × RowModel)} {list : List RowModel} {k : String} {app : App}
    (happ : afind am k = some app) (hex : ∃ r ∈ list, r.id = k) :
    (((update_apps am pm pmm list).1.filter (fun r => r.id == k)).map RowModel.ref_)
      = ((list.filter (fun r => r.id == k)).map RowModel.ref_) := by
  have hsome : (afind am k).isSome = true := by rw [happ]; rfl
  obtain ⟨r0, hr0, hid0⟩ := hex
  have hkseen : k ∈ apps_seen am list := by
    have := mem_apps_seen_of hr0 (by rw [hid0]; exact hsome)
    rwa [hid0] at this
  rw [update_apps_fst, List.filter_append, List.map_append]
  have hnew : ((new_app_rows pm pmm
      (am.filter (fun a => !(apps_seen am list).contains a.id))
      (upd_app_rows am pm pmm list []).2).1.filter (fun r => r.id == k)) = [] := by
    apply List.filter_eq_nil_iff.mpr
    intro b hb
    obtain ⟨a, ha, hid⟩ := forall₂_mem_right (new_app_rows_forall₂ pm pmm _ _) b hb
    obtain ⟨_, hfil⟩ := List.mem_filter.mp ha
    intro hbk
    have hak : a.id = k := by
      have : b.id = k := by simpa using hbk
      rw [← hid]; exact this
    rw [hak] at hfil
    exact (by simpa [List.elem_iff] using hfil : k ∉ apps_seen am list) hkseen
  rw [hnew]
  have hkept := filter_filter_of_imp
    (l := (upd_app_rows am pm pmm list []).1)
    (b := fun r => r.id == k) (q := fun r => !(apps_dead am list).contains r.id)
    (fun r _ hrk => by
      have hrid : r.id = k := by simpa using hrk
      show (!(apps_dead am list).contains r.id) = true
      rw [hrid]
      exact not_contains_of (not_mem_apps_dead hsome))
  rw [hkept, List.map_nil, List.append_nil]
  exact forall₂_filter_map RowModel.ref_ (fun r => r.id == k)
    (fun a b hR => hR.1)
    (fun a b hR => by
      have : RowModel.id b = RowModel.id a := hR.2
      simp only [RowModel.id_def] at this
      simp [RowModel.id_def, this])
    (upd_app_rows_forall₂ am pm pmm list [])

/-- Identity stability for `update_processes`: rows whose pid survives in
the requested set and the table keep their allocation tokens, in order,
with nothing added or removed under that pid. -/
theorem processes_stability {fuel : Nat} {pm : List Process} {pids : List Nat}
    {list : List RowModel} {icons : List (Nat × String)} {icon : String} {mg : Bool}
    {sect : SectionType} {ps : Option Service} {out : List RowModel} {p : Nat}
    {proc : Process}
    (hout : update_processes fuel pm pids list icons icon mg sect ps = some out)
    (hp : pids.contains p = true) (hproc : pfind pm p = some proc)
    (hex : ∃ r ∈ list, r.pid = p) :
    ((out.filter (fun r => r.pid == p)).map RowModel.ref_)
      = ((list.filter (fun r => r.pid == p)).map RowModel.ref_) := by
  cases fuel with
  | zero => simp [update_processes] at hout
  | succ n =>
    obtain ⟨rows, new_rows, hrows, hnews, rfl⟩ := update_processes_some hout
    have hsome : (pfind pm p).isSome = true := by rw [hproc]; rfl
    obtain ⟨r0, hr0, hid0⟩ := hex
    have hpseen : p ∈ procs_seen pm pids list := by
      have := mem_procs_seen_of hr0 (by rw [hid0]; exact hp) (by rw [hid0]; exact hsome)
      rwa [hid0] at this
    rw [List.filter_append, List.map_append]
    have hnew : (new_rows.filter (fun r => r.pid == p)) = [] := by
      apply List.filter_eq_nil_iff.mpr
      intro b hb
      obtain ⟨proc', hproc', hcore⟩ := forall₂_mem_right (mapOpt_forall₂ hnews) b hb
      have hfields := update_process_core_fields hcore
      obtain ⟨q, hq, hpq⟩ := List.mem_filterMap.mp hproc'
      have hqpid : proc'.pid = q := (pfind_some hpq).2
      obtain ⟨_, hqfil⟩ := List.mem_filter.mp hq
      intro hbk
      have hbp : b.pid = p := by simpa using hbk
      have : q = p := by
        rw [← hqpid, ← hbp]
        have h1 := hfields.2.1
        simpa [build_process_row] using h1.symm
      rw [this] at hqfil
      exact (by simpa [List.elem_iff] using hqfil : p ∉ procs_seen pm pids list) hpseen
    rw [hnew]
    have hkept := filter_filter_of_imp
      (l := rows)
      (b := fun r => r.pid == p)
      (q := fun r => !(procs_dead pm pids list).contains r.pid)
      (fun r _ hrk => by
        have hrid : r.pid = p := by simpa using hrk
        show (!(procs_dead pm pids list).contains r.pid) = true
        rw [hrid]
        exact not_contains_of (not_mem_procs_dead hp hsome))
    rw [hkept, List.map_nil, List.append_nil]
    exact forall₂_filter_map RowModel.ref_ (fun r => r.pid == p)
      (fun a b hR => hR.1)
      (fun a b hR => by
        have : RowModel.pid b = RowModel.pid a := hR.2
        simp only [RowModel.pid_def] at this
        simp [RowModel.pid_def, this])
      ((mapOpt_forall₂ hrows).imp (fun a b hab => upd_process_row_fields hab))

/-- Newly created service rows carry the ids of the services they were
built from. -/
theorem new_service_rows_forall₂ {fuel : Nat} {pm : List Process}
    {icons : List (Nat × String)} {icon : String} {mg : Bool} {sect : SectionType}
    {svcs : List Service} {out : List RowModel}
    (h : mapOpt (fun service =>
        update_service fuel pm (build_service_row sect service) service icons
          icon mg) svcs = some out) :
    List.Forall₂ (fun (s : Service) (b : RowModel) => b.service_id = s.id) svcs out := by
  refine (mapOpt_forall₂ h).imp ?_
  intro s b hsb
  have := (update_service_fields hsb).2
  simpa [build_service_row] using this

/-- Identity stability for `update_services`: rows whose service id
survives in the snapshot keep their allocation tokens, in order, with
nothing added or removed under that id. -/
theorem services_stability {fuel : Nat} {pm : List Process}
    {services : List Service} {list : List RowModel} {icons : List (Nat × String)}
    {icon : String} {mg : Bool} {sect : SectionType} {out : List RowModel} {k : Nat}
    {svc : Service}
    (hout : update_services fuel pm services list icons icon mg sect = some out)
    (hsvc : sfind services k = some svc) (hex : ∃ r ∈ list, r.service_id = k) :
    ((out.filter (fun r => r.service_id == k)).map RowModel.ref_)
      = ((list.filter (fun r => r.service_id == k)).map RowModel.ref_) := by
  obtain ⟨rows, new_rows, hrows, hnews, rfl⟩ := update_services_some hout
  have hsome : (sfind services k).isSome = true := by rw [hsvc]; rfl
  obtain ⟨r0, hr0, hid0⟩ := hex
  have hkseen : k ∈ svcs_seen services list := by
    have := mem_svcs_seen_of hr0 (by rw [hid0]; exact hsome)
    rwa [hid0] at this
  rw [List.filter_append, List.map_append]
  have hnew : (new_rows.filter (fun r => r.service_id == k)) = [] := by
    apply List.filter_eq_nil_iff.mpr
    intro b hb
    obtain ⟨s, hs, hsid⟩ := forall₂_mem_right (new_service_rows_forall₂ hnews) b hb
    obtain ⟨_, hfil⟩ := List.mem_filter.mp hs
    intro hbk
    have hsk : s.id = k := by
      have : b.service_id = k := by simpa using hbk
      rw [← hsid]; exact this
    rw [hsk] at hfil
    exact (by simpa [List.elem_iff] using hfil : k ∉ svcs_seen services list) hkseen
  rw [hnew]
  have hkept := filter_filter_of_imp
    (l := rows)
    (b := fun r => r.service_id == k)
    (q := fun r => !(svcs_dead services list).contains r.service_id)
    (fun r _ hrk => by
      have hrid : r.service_id = k := by simpa using hrk
      show (!(svcs_dead services list).contains r.service_id) = true
      rw [hrid]
      exact not_contains_of (not_mem_svcs_dead hsome))
  rw [hkept, List.map_nil, List.append_nil]
  exact forall₂_filter_map RowModel.ref_ (fun r => r.service_id == k)
    (fun a b hR => hR.1)
    (fun a b hR => by
      have : RowModel.service_id b = RowModel.service_id a := hR.2
      simp only [RowModel.service_id_def] at this
      simp [RowModel.service_id_def, this])
    (upd_service_rows_forall₂ hrows)

/-- C1.  Identity stability: for every entity (app, process, or service)
whose identity key (app id, pid, or service id) is present in two
consecutive snapshots — i.e. a row with that key is already in the child
list and the key is in the incoming map — the reconciliation functions
`update_apps` / `update_processes` / `update_services` mutate the
existing row for that key in place: the rows carrying that key after the
call are exactly the rows that carried it before, in order, with the
same allocation token (`ref_`); no new node is created for that key and
the old one is not removed. -/
theorem C1_identity_stability :
    (∀ (am : List App) (pm : List Process) (pmm : List (Nat × RowModel))
        (list : List RowModel) (k : String) (app : App),
      afind am k = some app → (∃ r ∈ list, r.id = k) →
      (((update_apps am pm pmm list).1.filter (fun r => r.id == k)).map
        RowModel.ref_)
        = ((list.filter (fun r => r.id == k)).map RowModel.ref_))
    ∧ (∀ (fuel : Nat) (pm : List Process) (pids : List Nat) (list : List RowModel)
        (icons : List (Nat × String)) (icon : String) (mg : Bool)
        (sect : SectionType) (ps : Option Service) (out : List RowModel) (p : Nat)
        (proc : Process),
      update_processes fuel pm pids list icons icon mg sect ps = some out →
      pids.contains p = true → pfind pm p = some proc → (∃ r ∈ list, r.pid = p) →
      ((out.filter (fun r => r.pid == p)).map RowModel.ref_)
        = ((list.filter (fun r => r.pid == p)).map RowModel.ref_))
    ∧ (∀ (fuel : Nat) (pm : List Process) (services : List Service)
        (list : List RowModel) (icons : List (Nat × String)) (icon : String)
        (mg : Bool) (sect : SectionType) (out : List RowModel) (k : Nat)
        (svc : Service),
      update_services fuel pm services list icons icon mg sect = some out →
      sfind services k = some svc → (∃ r ∈ list, r.service_id = k) →
      ((out.filter (fun r => r.service_id == k)).map RowModel.ref_)
        = ((list.filter (fun r => r.service_id == k)).map RowModel.ref_)) :=
  ⟨fun _ _ _ _ _ _ happ hex => apps_stability happ hex,
   fun _ _ _ _ _ _ _ _ _ _ _ _ hout hp hproc hex =>
     processes_stability hout hp hproc hex,
   fun _ _ _ _ _ _ _ _ _ _ _ hout hsvc hex => services_stability hout hsvc hex⟩

/-- Witness for C1 at concrete inputs: one surviving app id, one
surviving pid, one surviving service id, each keeping its token. -/
theorem C1_identity_stability_witness :
    ((((update_apps [{ id := "a", pids := [1] }] [{ pid := 1 }] []
        [RowModel.mk { ref_ := 7, id := "a" } []]).1.filter
          (fun r => r.id == "a")).map RowModel.ref_)
      = (([RowModel.mk { ref_ := 7, id := "a" } []].filter
          (fun r => r.id == "a")).map RowModel.ref_))
    ∧ ((((update_processes 2 [{ pid := 1 }] [1]
        [RowModel.mk { ref_ := 9, pid := 1 } []] [] "" false
        SectionType.firstSection none).getD []).filter
          (fun r => r.pid == 1)).map RowModel.ref_
      = (([RowModel.mk { ref_ := 9, pid := 1 } []].filter
          (fun r => r.pid == 1)).map RowModel.ref_))
    ∧ ((((update_services 2 [] [{ id := 5 }]
        [RowModel.mk { ref_ := 3, service_id := 5 } []] [] "" false
        SectionType.secondSection).getD []).filter
          (fun r => r.service_id == 5)).map RowModel.ref_
      = (([RowModel.mk { ref_ := 3, service_id := 5 } []].filter
          (fun r => r.service_id == 5)).map RowModel.ref_)) :=
  ⟨C1_identity_stability.1 [{ id := "a", pids := [1] }] [{ pid := 1 }] []
      [RowModel.mk { ref_ := 7, id := "a" } []] "a" { id := "a", pids := [1] } rfl
      ⟨RowModel.mk { ref_ := 7, id := "a" } [], by simp, rfl⟩,
   C1_identity_stability.2.1 2 [{ pid := 1 }] [1]
      [RowModel.mk { ref_ := 9, pid := 1 } []] [] "" false SectionType.firstSection
      none
      ((update_processes 2 [{ pid := 1 }] [1]
        [RowModel.mk { ref_ := 9, pid := 1 } []] [] "" false
        SectionType.firstSection none).getD [])
      1 { pid := 1 } rfl rfl rfl
      ⟨RowModel.mk { ref_ := 9, pid := 1 } [], by simp, rfl⟩,
   C1_identity_stability.2.2 2 [] [{ id := 5 }]
      [RowModel.mk { ref_ := 3, service_id := 5 } []] [] "" false
      SectionType.secondSection
      ((update_services 2 [] [{ id := 5 }]
        [RowModel.mk { ref_ := 3, service_id := 5 } []] [] "" false
        SectionType.secondSection).getD [])
      5 { id := 5 } rfl rfl
      ⟨RowModel.mk { ref_ := 3, service_id := 5 } [], by simp, rfl⟩⟩

/-- C2.  Exhaustive coverage for apps: after `update_apps`, the set of
app ids present in the section's child list equals exactly the set of
app ids present in the incoming app map. -/
theorem C2_exhaustive_app_coverage (am : List App) (pm : List Process)
    (pmm : List (Nat × RowModel)) (list : List RowModel) (k : String) :
    (∃ r ∈ (update_apps am pm pmm list).1, r.id = k) ↔ ∃ a ∈ am, a.id = k := by
  rw [update_apps_fst]
  constructor
  · rintro ⟨r, hr, rfl⟩
    rcases List.mem_append.mp hr with hk | hn
    · obtain ⟨hr', hfil⟩ := List.mem_filter.mp hk
      obtain ⟨r0, hr0, hR⟩ :=
        forall₂_mem_right (upd_app_rows_forall₂ am pm pmm list []) r hr'
      by_cases hs : (afind am r.id).isSome = true
      · obtain ⟨a, ha⟩ := Option.isSome_iff_exists.mp hs
        obtain ⟨ham, haid⟩ := afind_some ha
        exact ⟨a, ham, haid⟩
      · exfalso
        have hdead : r.id ∈ apps_dead am list := by
          unfold apps_dead
          apply List.mem_filterMap.mpr
          refine ⟨r0, hr0, ?_⟩
          have hid : RowModel.id r0 = RowModel.id r := hR.2.symm
          simp only [RowModel.id_def] at hid
          simp only [RowModel.id_def] at hs ⊢
          rw [hid, if_neg hs]
        exact (by simpa [List.elem_iff] using hfil : r.id ∉ apps_dead am list) hdead
    · obtain ⟨a, ha, hid⟩ := forall₂_mem_right (new_app_rows_forall₂ pm pmm _ _) r hn
      exact ⟨a, (List.mem_filter.mp ha).1, hid.symm⟩
  · rintro ⟨a, ha, rfl⟩
    by_cases hseen : a.id ∈ apps_seen am list
    · obtain ⟨r0, hr0, hif⟩ := List.mem_filterMap.mp hseen
      by_cases hs : (afind am r0.id).isSome = true
      · rw [if_pos hs] at hif
        injection hif with h'
        obtain ⟨r', hr', hR⟩ :=
          forall₂_mem_left (upd_app_rows_forall₂ am pm pmm list []) r0 hr0
        refine ⟨r', List.mem_append.mpr (Or.inl (List.mem_filter.mpr ⟨hr', ?_⟩)), ?_⟩
        · show (!(apps_dead am list).contains r'.id) = true
          have hid : RowModel.id r' = RowModel.id r0 := hR.2
          rw [hid]
          exact not_contains_of (not_mem_apps_dead hs)
        · exact hR.2.trans h'
      · rw [if_neg hs] at hif
        cases hif
    · have hmem : a ∈ am.filter (fun a => !(apps_seen am list).contains a.id) :=
        List.mem_filter.mpr ⟨ha, not_contains_of hseen⟩
      obtain ⟨r', hr', hid⟩ := forall₂_mem_left (new_app_rows_forall₂ pm pmm _ _) a hmem
      exact ⟨r', List.mem_append.mpr (Or.inr hr'), hid⟩

/-- C5.  Search filter match condition: when search is enabled and the
query is non-empty, a non-section-header node passes the search filter
iff the lowercased query is a substring of the lowercased name, or the
lowercased name is a substring of the lowercased query, or the
pid-as-string and the query contain one another in either direction, or
the normalized Levenshtein distance between lowercased name and query
is at most 0.6; when search is disabled or the query is empty, and for
Section-Header nodes always, the filter passes. -/
theorem C5_search_filter_condition (st : SearchState) (row : RowModel) :
    search_filter st row = search_matches_spec st row := by
  unfold search_filter search_matches_spec
  by_cases ha : st.search_active = true
  case neg =>
    simp [ha]
  case pos =>
    by_cases hq : st.query.data.isEmpty = true
    · simp [ha, hq]
    · by_cases hh : row.core.content_type = ContentType.sectionHeader
      · simp [ha, hq, hh]
      · cases h1 : contains_sub (to_lower row.core.name.data) (to_lower st.query.data) <;>
          cases h2 : contains_sub ((toString row.core.pid).data) (to_lower st.query.data) <;>
            cases h3 : contains_sub (to_lower st.query.data) (to_lower row.core.name.data) <;>
              cases h4 : contains_sub (to_lower st.query.data) ((toString row.core.pid).data) <;>
                cases h5 : ndist_le_06 (to_lower row.core.name.data) (to_lower st.query.data) <;>
                  simp [ha, hq, hh, h1, h2, h3, h4, h5]

/-- Claim C6's pass condition, phrased on the service record itself with
the derived stopped / disabled states. -/
def category_matches_spec (g : Toggles) (svc : Service) (isHeader : Bool) : Bool :=
  if isHeader then true
  else if !g.running_active && !g.failed_active
      && !g.stopped_active && !g.disabled_active then true
  else
    (g.running_active && svc.running)
      || (g.failed_active && svc.failed)
      || (g.stopped_active && (svc.enabled && !svc.running && !svc.failed))
      || (g.disabled_active && (!svc.enabled && !svc.running && !svc.failed))

/-- C6.  Category filter for services: on a row whose service state was
written by `set_service` from a service record, the filter passes iff no
toggle is active, or some active toggle's predicate holds, with stopped
derived as `enabled && !running && !failed` and disabled as
`!enabled && !running && !failed`; Section-Header rows always pass, and
an absent toggle group passes everything. -/
theorem C6_category_filter_condition (g : Toggles) (row : RowModel) (svc : Service) :
    category_filter (some g) (set_service row svc)
      = category_matches_spec g svc (row.content_type == ContentType.sectionHeader)
    ∧ category_filter none row = true := by
  constructor
  · obtain ⟨c, cs⟩ := row
    obtain ⟨sid, sname, sfp, su, sg, srun, sen, sfail, spid⟩ := svc
    unfold category_filter category_matches_spec set_service
    by_cases hh : (c.content_type == ContentType.sectionHeader) = true
    · simp [hh]
    · cases srun <;> cases sfail <;> cases sen <;> simp [hh]
  · rfl

/-- C7 counterexample: the node named "abc" passes the filter on the
query "a" via an exact-substring match, "a" is an exact substring of the
wider non-empty query "axyz", yet the node fails the filter on "axyz"
(every substring direction fails and the normalized edit distance is
3/4 > 0.6). -/
theorem C7_counterexample :
    contains_sub (to_lower (String.data "abc")) (to_lower (String.data "a")) = true
    ∧ String.data "a" <:+: String.data "axyz"
    ∧ String.data "a" ≠ [] ∧ String.data "axyz" ≠ []
    ∧ search_filter { search_active := true, query := "a" }
        (RowModel.mk { name := "abc", pid := 0, content_type := .process } []) = true
    ∧ search_filter { search_active := true, query := "axyz" }
        (RowModel.mk { name := "abc", pid := 0, content_type := .process } [])
        = false := by
  refine ⟨by decide, by decide, by decide, by decide, by decide, by decide⟩

/-- C7 as amended: narrowing monotonicity of exact-substring matches.
For non-empty queries q ⊆ q' (exact substrings), a node that passes the
filter on the wider query q' via an exact-substring name match also
passes the filter on q. -/
theorem C7_search_monotonicity_amended (row : RowModel) (q qp : List Char)
    (hq : q ≠ []) (hsub : q <:+: qp)
    (hmatch : contains_sub (to_lower row.name.data) (to_lower qp) = true) :
    search_filter { search_active := true, query := String.mk q } row = true := by
  unfold search_filter
  have hqe : (String.mk q).data.isEmpty = false := by
    cases q with
    | nil => exact absurd rfl hq
    | cons a as => rfl
  by_cases hh : row.core.content_type = ContentType.sectionHeader
  · simp [hh, hqe]
  · have hq1 : to_lower q <:+: to_lower qp := hsub.map Char.toLower
    have hq2 : to_lower qp <:+: to_lower row.core.name.data := of_decide_eq_true hmatch
    have hcont : contains_sub (to_lower row.core.name.data) (to_lower q) = true :=
      decide_eq_true (hq1.trans hq2)
    simp [hh, hqe, hcont]

/-- Witness for C7's amended theorem: name "chrome", q = "chr",
q' = "chro". -/
theorem C7_search_monotonicity_amended_witness :
    search_filter { search_active := true, query := String.mk (String.data "chr") }
      (RowModel.mk { name := "chrome", pid := 0, content_type := .process } [])
      = true :=
  C7_search_monotonicity_amended
    (RowModel.mk { name := "chrome", pid := 0, content_type := .process } [])
    (String.data "chr") (String.data "chro") (by decide) (by decide) (by decide)

/-- C8 counterexample: with remember-sorting on, a stored column that
matches, and the out-of-range persisted direction value 7, the code
applies an ascending sort instead of disabling the restore and keeping
the natural order. -/
theorem C8_counterexample :
    configure_sorting true "cpu" 7 [some "cpu"]
      = SortAction.sortBy (some 0) SortType.ascending
    ∧ SortAction.sortBy (some 0) SortType.ascending ≠ SortAction.noSort := by
  exact ⟨rfl, by decide⟩

/-- C8 as amended: only the sentinel value 255 (the none-meaning-unset
encoding) disables restoring a prior sort; every other persisted
direction value that is neither ascending (0) nor descending (1) logs a
diagnostic and falls back to sorting the matched column in ascending
order. -/
theorem C8_malformed_sort_direction_amended (saved_id : String)
    (cols : List (Option String)) (order : Int)
    (h0 : order ≠ 0) (h1 : order ≠ 1) :
    configure_sorting true saved_id order cols
      = if order = 255 then SortAction.noSort
        else SortAction.sortBy (match_column saved_id cols) SortType.ascending := by
  have e0 : (order == 0) = false := by simpa using h0
  have e1 : (order == 1) = false := by simpa using h1
  by_cases h255 : order = 255
  · simp [configure_sorting, e0, e1, h255]
  · have e255 : (order == 255) = false := by simpa using h255
    simp [configure_sorting, e0, e1, e255, h255]

/-- Witness for C8's amended theorem at the out-of-range value 42. -/
theorem C8_malformed_sort_direction_amended_witness :
    configure_sorting true "x" 42 []
      = SortAction.sortBy (match_column "x" []) SortType.ascending := by
  have h := C8_malformed_sort_direction_amended "x" [] 42 (by decide) (by decide)
  rw [if_neg (by decide)] at h
  exact h

/-- Merging into the all-zero default stats is the identity. -/
theorem merge_default (b : ProcessUsageStats) :
    ProcessUsageStats.merge {} b = b := by
  cases b
  simp [ProcessUsageStats.merge]

/-- C10.  When primary-process resolution for an app yields the empty
set, `update_app` removes all of the app row's children and returns
early, leaving the icon field, the stat fields and the icon map exactly
as they were; in every other case `update_app` ends by overwriting the
stats with a value that does not depend on the row's previous stats. -/
theorem C10_empty_primary_frame (app : App) (pm : List Process)
    (pmm : List (Nat × RowModel)) (icons : List (Nat × String)) (row : RowModel) :
    (primary_processes app pm = [] →
      update_app app pm pmm icons row = (row.withChildren [], icons))
    ∧ (primary_processes app pm ≠ [] →
      ∀ s, (update_app app pm pmm icons (set_stats row s)).1.core.stats
        = (update_app app pm pmm icons row).1.core.stats) := by
  constructor
  · intro h
    simp [update_app, h]
  · intro h s
    have he : (primary_processes app pm).isEmpty = false := by
      cases hEmpty : (primary_processes app pm).isEmpty
      · rfl
      · exact absurd (List.isEmpty_iff.mp hEmpty) h
    simp [update_app, he, set_stats]

/-- Witness for C10: an app with no pids leaves icon and stats alone
while clearing children; an app with one live pid overwrites stats
regardless of the previous stats value. -/
theorem C10_empty_primary_frame_witness :
    update_app { id := "x" } [] [] []
      (RowModel.mk { icon := "i", stats := { cpu_usage := 4 } } [RowModel.mk {} []])
      = ((RowModel.mk { icon := "i", stats := { cpu_usage := 4 } }
          [RowModel.mk {} []]).withChildren [], [])
    ∧ (update_app { id := "y", pids := [5] } [{ pid := 5 }] [] []
        (set_stats (RowModel.mk {} []) { cpu_usage := 99 })).1.core.stats
      = (update_app { id := "y", pids := [5] } [{ pid := 5 }] [] []
        (RowModel.mk {} [])).1.core.stats :=
  ⟨(C10_empty_primary_frame { id := "x" } [] [] []
      (RowModel.mk { icon := "i", stats := { cpu_usage := 4 } }
        [RowModel.mk {} []])).1 rfl,
   (C10_empty_primary_frame { id := "y", pids := [5] } [{ pid := 5 }] [] []
      (RowModel.mk {} [])).2 (by decide) { cpu_usage := 99 }⟩

/-- The stats copy of `update_service` resolves to the owning process's
merged stats when the process table has the pid. -/
theorem apply_service_stats_of_pfind {pm : List Process} {p : Nat} {proc : Process}
    (hproc : pfind pm p = some proc) (r : RowModel) :
    (apply_service_stats pm p r).core.stats = proc.merged_usage_stats pm := by
  unfold apply_service_stats
  rw [hproc]
  obtain ⟨c, cs⟩ := r
  rfl

/-- The first component of the per-primary accumulation fold depends
only on its own first component: projecting out the stats of the
accumulated (stats, icon map, child list) triple gives the stats-only
fold. -/
theorem foldl_fst {α β γ : Type _} (f : α → γ → α) (step : α × β → γ → α × β)
    (hstep : ∀ (a : α) (b : β) (p : γ), (step (a, b) p).1 = f a p) :
    ∀ (l : List γ) (a : α) (b : β), (l.foldl step (a, b)).1 = l.foldl f a
  | [], _, _ => rfl
  | p :: ps, a, b => by
    simp only [List.foldl_cons]
    have h1 : (ps.foldl step (step (a, b) p)).1
        = (ps.foldl step ((step (a, b) p).1, (step (a, b) p).2)).1 := rfl
    rw [h1, foldl_fst f step hstep ps ((step (a, b) p).1) ((step (a, b) p).2), hstep]

/-- C4 counterexample: with the merged-stats flag off, a service owning
pid 1 (whose process has a child, pid 2) is given the merged stats of
the subtree (cpu 1 + 2 = 3), not its own entity's stats (cpu 1); and an
app whose single primary process is that same pid 1 likewise gets the
descendant-summed cpu 3 while the primary's own stats are cpu 1 —
`update_app` takes no flag at all. -/
theorem C4_counterexample :
    (update_service 5
        [{ pid := 1, children := [2], usage_stats := { cpu_usage := 1 } },
          { pid := 2, usage_stats := { cpu_usage := 2 } }]
        (RowModel.mk { service_id := 7 } []) { id := 7, pid := some 1 } [] ""
        false).map (fun r => r.core.stats.cpu_usage)
      ≠ (pfind [{ pid := 1, children := [2], usage_stats := { cpu_usage := 1 } },
          { pid := 2, usage_stats := { cpu_usage := 2 } }] 1).map
          (fun p => p.usage_stats.cpu_usage)
    ∧ (update_app { id := "a", pids := [1] }
        [{ pid := 1, children := [2], usage_stats := { cpu_usage := 1 } },
          { pid := 2, usage_stats := { cpu_usage := 2 } }] [] []
        (RowModel.mk {} [])).1.core.stats.cpu_usage = 3
    ∧ (pfind [{ pid := 1, children := [2], usage_stats := { cpu_usage := 1 } },
          { pid := 2, usage_stats := { cpu_usage := 2 } }] 1).map
          (fun p => p.usage_stats.cpu_usage) = some 1 := by
  refine ⟨by decide, by decide, by decide⟩

/-- C4 as amended: with the merged-stats flag off, a process row's stats
are exactly its own entity's usage stats; but service rows whose owning
pid resolves in the process table always receive the merged stats of
that process's subtree regardless of the flag, and app rows with a
non-empty primary set always receive the field-wise merge of the merged
subtree stats of all their primary processes — `update_app` does not
consult the flag at all. -/
theorem C4_raw_mode_amended :
    (∀ (fuel : Nat) (pm : List Process) (proc : Process) (row : RowModel)
        (icons : List (Nat × String)) (icon : String) (sect : SectionType)
        (ps : Option Service) (out : RowModel),
      update_process fuel pm proc row icons icon false sect ps = some out →
      out.core.stats = proc.usage_stats)
    ∧ (∀ (fuel : Nat) (pm : List Process) (row : RowModel) (svc : Service)
        (icons : List (Nat × String)) (icon : String) (mg : Bool) (p : Nat)
        (proc : Process) (out : RowModel),
      svc.pid = some p → pfind pm p = some proc →
      update_service fuel pm row svc icons icon mg = some out →
      out.core.stats = proc.merged_usage_stats pm)
    ∧ (∀ (app : App) (pm : List Process) (pmm : List (Nat × RowModel))
        (icons : List (Nat × String)) (row : RowModel),
      primary_processes app pm ≠ [] →
      (update_app app pm pmm icons row).1.core.stats
        = ((primary_processes app pm).filterMap (pfind pm)).foldl
            (fun acc proc => acc.merge (proc.merged_usage_stats pm)) {}) := by
  refine ⟨?_, ?_, ?_⟩
  · intro fuel pm proc row icons icon sect ps out h
    have := (update_process_core_fields h).2.2.2
    simpa using this
  · intro fuel pm row svc icons icon mg p proc out hpid hproc h
    unfold update_service at h
    rw [hpid] at h
    simp only at h
    split at h
    · next ch hch =>
      cases h
      simp only [RowModel.core_withChildren]
      exact apply_service_stats_of_pfind hproc _
    · exact absurd h (by simp)
  · intro app pm pmm icons row hne
    have he : (primary_processes app pm).isEmpty = false := by
      cases hEmpty : (primary_processes app pm).isEmpty
      · rfl
      · exact absurd (List.isEmpty_iff.mp hEmpty) hne
    simp only [update_app, he, Bool.false_eq_true, if_false, set_stats,
      RowModel.core_withCore, RowModel.children_withCore, RowModel.core_withChildren]
    refine foldl_fst
      (fun (acc : ProcessUsageStats) (proc : Process) =>
        acc.merge (proc.merged_usage_stats pm)) _ ?_ _ _ _
    intro a b p
    rfl

/-- Witness for C4's amended theorem: raw-mode process stats, always-
merged service stats, and merged app stats aggregated over a
multi-element primary set, on small tables. -/
theorem C4_raw_mode_amended_witness :
    ((update_process 2 [{ pid := 1, usage_stats := { cpu_usage := 3 } }]
        { pid := 1, usage_stats := { cpu_usage := 3 } } (RowModel.mk {} []) [] ""
        false SectionType.firstSection none).getD (RowModel.mk {} [])).core.stats
      = { cpu_usage := 3 }
    ∧ ((update_service 5
        [{ pid := 1, children := [2], usage_stats := { cpu_usage := 1 } },
          { pid := 2, usage_stats := { cpu_usage := 2 } }]
        (RowModel.mk { service_id := 7 } []) { id := 7, pid := some 1 } [] ""
        false).getD (RowModel.mk {} [])).core.stats
      = Process.merged_usage_stats
          { pid := 1, children := [2], usage_stats := { cpu_usage := 1 } }
          [{ pid := 1, children := [2], usage_stats := { cpu_usage := 1 } },
            { pid := 2, usage_stats := { cpu_usage := 2 } }]
    ∧ (update_app { id := "y", pids := [5, 6] }
        [{ pid := 5, usage_stats := { cpu_usage := 8 } },
          { pid := 6, usage_stats := { cpu_usage := 4 } }] [] []
        (RowModel.mk {} [])).1.core.stats
      = { cpu_usage := 12 } :=
  ⟨C4_raw_mode_amended.1 2 [{ pid := 1, usage_stats := { cpu_usage := 3 } }]
      { pid := 1, usage_stats := { cpu_usage := 3 } } (RowModel.mk {} []) [] ""
      SectionType.firstSection none
      ((update_process 2 [{ pid := 1, usage_stats := { cpu_usage := 3 } }]
        { pid := 1, usage_stats := { cpu_usage := 3 } } (RowModel.mk {} []) [] ""
        false SectionType.firstSection none).getD (RowModel.mk {} [])) rfl,
   C4_raw_mode_amended.2.1 5
      [{ pid := 1, children := [2], usage_stats := { cpu_usage := 1 } },
        { pid := 2, usage_stats := { cpu_usage := 2 } }]
      (RowModel.mk { service_id := 7 } []) { id := 7, pid := some 1 } [] "" false 1
      { pid := 1, children := [2], usage_stats := { cpu_usage := 1 } }
      ((update_service 5
        [{ pid := 1, children := [2], usage_stats := { cpu_usage := 1 } },
          { pid := 2, usage_stats := { cpu_usage := 2 } }]
        (RowModel.mk { service_id := 7 } []) { id := 7, pid := some 1 } [] ""
        false).getD (RowModel.mk {} [])) rfl rfl rfl,
   C4_raw_mode_amended.2.2 { id := "y", pids := [5, 6] }
      [{ pid := 5, usage_stats := { cpu_usage := 8 } },
        { pid := 6, usage_stats := { cpu_usage := 4 } }] [] [] (RowModel.mk {} [])
      (by decide)⟩

/-! ### Primary-process selection: membership lemmas -/

theorem mem_add_children {pids : List Nat} {x : Nat} :
    ∀ {cs acc : List Nat},
      x ∈ add_children pids acc cs ↔ x ∈ acc ∨ (x ∈ cs ∧ x ∈ pids)
  | [], acc => by simp [add_children]
  | c :: cs, acc => by
    rw [show add_children pids acc (c :: cs)
      = add_children pids (if pids.contains c then insertU acc c else acc) cs from rfl]
    rw [mem_add_children]
    by_cases hc : pids.contains c = true
    · have hcm : c ∈ pids := List.elem_iff.mp hc
      rw [if_pos hc, mem_insertU]
      constructor
      · rintro ((h | rfl) | ⟨h1, h2⟩)
        · exact Or.inl h
        · exact Or.inr ⟨List.mem_cons_self _ _, hcm⟩
        · exact Or.inr ⟨List.mem_cons_of_mem _ h1, h2⟩
      · rintro (h | ⟨h1, h2⟩)
        · exact Or.inl (Or.inl h)
        · rcases List.mem_cons.mp h1 with rfl | h1
          · exact Or.inl (Or.inr rfl)
          · exact Or.inr ⟨h1, h2⟩
    · have hcm : c ∉ pids := fun hm => hc (List.elem_iff.mpr hm)
      rw [if_neg hc]
      constructor
      · rintro (h | ⟨h1, h2⟩)
        · exact Or.inl h
        · exact Or.inr ⟨List.mem_cons_of_mem _ h1, h2⟩
      · rintro (h | ⟨h1, h2⟩)
        · exact Or.inl h
        · rcases List.mem_cons.mp h1 with rfl | h1
          · exact absurd h2 hcm
          · exact Or.inr ⟨h1, h2⟩

theorem mem_secondary_loop {app : App} {pm : List Process} {x : Nat} :
    ∀ {rest acc : List Nat},
      x ∈ secondary_loop app pm acc rest
        ↔ x ∈ acc
          ∨ ∃ q ∈ rest,
              (∃ proc, pfind pm q = some proc ∧ x ∈ proc.children) ∧ x ∈ app.pids
  | [], acc => by simp [secondary_loop]
  | q :: rest, acc => by
    rw [show secondary_loop app pm acc (q :: rest)
      = secondary_loop app pm
          (match pfind pm q with
           | some process => add_children app.pids acc process.children
           | none => acc) rest from rfl]
    rw [mem_secondary_loop]
    cases hq : pfind pm q with
    | none =>
      constructor
      · rintro (h | ⟨q', hq', hP⟩)
        · exact Or.inl h
        · exact Or.inr ⟨q', List.mem_cons_of_mem _ hq', hP⟩
      · rintro (h | ⟨q', hq', ⟨proc, hpq, hxc⟩, hxp⟩)
        · exact Or.inl h
        · rcases List.mem_cons.mp hq' with rfl | hq'
          · rw [hq] at hpq; cases hpq
          · exact Or.inr ⟨q', hq', ⟨proc, hpq, hxc⟩, hxp⟩
    | some proc =>
      rw [mem_add_children]
      constructor
      · rintro ((h | ⟨h1, h2⟩) | ⟨q', hq', hP⟩)
        · exact Or.inl h
        · exact Or.inr ⟨q, List.mem_cons_self _ _, ⟨proc, hq, h1⟩, h2⟩
        · exact Or.inr ⟨q', List.mem_cons_of_mem _ hq', hP⟩
      · rintro (h | ⟨q', hq', ⟨proc', hpq, hxc⟩, hxp⟩)
        · exact Or.inl (Or.inl h)
        · rcases List.mem_cons.mp hq' with rfl | hq'
          · rw [hq] at hpq
            injection hpq with h'
            subst h'
            exact Or.inl (Or.inr ⟨hxc, hxp⟩)
          · exact Or.inr ⟨q', hq', ⟨proc', hpq, hxc⟩, hxp⟩

theorem mem_primary_loop {sec : List Nat} {x : Nat} :
    ∀ {rest acc : List Nat},
      x ∈ primary_loop sec acc rest ↔ x ∈ acc ∨ (x ∈ rest ∧ x ∉ sec)
  | [], acc => by simp [primary_loop]
  | q :: rest, acc => by
    rw [show primary_loop sec acc (q :: rest)
      = primary_loop sec
          (if !sec.contains q then insertU acc q else acc) rest from rfl]
    rw [mem_primary_loop]
    by_cases hc : sec.contains q = true
    · have hcm : q ∈ sec := List.elem_iff.mp hc
      rw [if_neg (by simp [List.elem_iff, hcm])]
      constructor
      · rintro (h | ⟨h1, h2⟩)
        · exact Or.inl h
        · exact Or.inr ⟨List.mem_cons_of_mem _ h1, h2⟩
      · rintro (h | ⟨h1, h2⟩)
        · exact Or.inl h
        · rcases List.mem_cons.mp h1 with rfl | h1
          · exact absurd hcm h2
          · exact Or.inr ⟨h1, h2⟩
    · have hcm : q ∉ sec := fun hm => hc (List.elem_iff.mpr hm)
      rw [if_pos (by simp [List.elem_iff, hcm]), mem_insertU]
      constructor
      · rintro ((h | rfl) | ⟨h1, h2⟩)
        · exact Or.inl h
        · exact Or.inr ⟨List.mem_cons_self _ _, hcm⟩
        · exact Or.inr ⟨List.mem_cons_of_mem _ h1, h2⟩
      · rintro (h | ⟨h1, h2⟩)
        · exact Or.inl (Or.inl h)
        · rcases List.mem_cons.mp h1 with rfl | h1
          · exact Or.inl (Or.inr rfl)
          · exact Or.inr ⟨h1, h2⟩

theorem secondary_spec_iff {app : App} {pm : List Process} {x : Nat} :
    secondary_spec app pm x = true
      ↔ ∃ q ∈ app.pids, q ≠ x ∧ ∃ proc, pfind pm q = some proc ∧ x ∈ proc.children := by
  unfold secondary_spec
  rw [List.any_eq_true]
  constructor
  · rintro ⟨q, hq, hb⟩
    rw [Bool.and_eq_true] at hb
    obtain ⟨hne, hm⟩ := hb
    cases hpq : pfind pm q with
    | none => rw [hpq] at hm; cases hm
    | some proc =>
      rw [hpq] at hm
      exact ⟨q, hq, by simpa using hne, proc, hpq, List.elem_iff.mp hm⟩
  · rintro ⟨q, hq, hne, proc, hpq, hx⟩
    refine ⟨q, hq, ?_⟩
    rw [Bool.and_eq_true]
    refine ⟨by simpa using hne, ?_⟩
    rw [hpq]
    exact List.elem_iff.mpr hx

theorem has_children_spec_iff {pm : List Process} {p : Nat} :
    has_children_spec pm p = true
      ↔ ∃ proc, pfind pm p = some proc ∧ proc.children ≠ [] := by
  unfold has_children_spec
  cases hp : pfind pm p with
  | none => simp
  | some proc => simp [List.isEmpty_iff]

/-- Under the data-model invariant that no process lists itself among its
children, the reconciler's secondary set agrees with the claim's
"child of another pid" description, for pids of the app. -/
theorem secondary_bridge {app : App} {pm : List Process} {x : Nat}
    (hns : ∀ proc ∈ pm, proc.pid ∉ proc.children) (hx : x ∈ app.pids) :
    x ∈ secondary_loop app pm [] app.pids ↔ secondary_spec app pm x = true := by
  rw [mem_secondary_loop, secondary_spec_iff]
  constructor
  · rintro (h | ⟨q, hq, ⟨proc, hpq, hxc⟩, _⟩)
    · cases h
    · have hqp := pfind_some hpq
      have hne : q ≠ x := by
        intro rfl2
        subst rfl2
        exact hns proc hqp.1 (hqp.2 ▸ hxc)
      exact ⟨q, hq, hne, proc, hpq, hxc⟩
  · rintro ⟨q, hq, _, proc, hpq, hxc⟩
    exact Or.inr ⟨q, hq, ⟨proc, hpq, hxc⟩, hx⟩

/-- The two fallback scans agree whenever some app pid has children in
the table (which is forced whenever the fallback is reached at all on a
non-empty pid list). -/
theorem fallback_agree {pm : List Process} :
    ∀ {l : List Nat}, (∃ r ∈ l, has_children_spec pm r = true) →
      fallback_loop pm l = fallback_spec pm l := by
  intro l
  induction l with
  | nil => intro _; rfl
  | cons p tail ih =>
    intro hex
    cases tail with
    | nil =>
      obtain ⟨r, hr, hhc⟩ := hex
      rcases List.mem_cons.mp hr with rfl | hr
      · obtain ⟨proc, hpq, _⟩ := has_children_spec_iff.mp hhc
        show fallback_loop pm [r] = fallback_spec pm [r]
        unfold fallback_loop fallback_spec
        rw [hpq]
      · cases hr
    | cons q rest =>
      have hspec : fallback_spec pm (p :: q :: rest)
          = if has_children_spec pm p = true then [p]
            else fallback_spec pm (q :: rest) := rfl
      cases hp : pfind pm p with
      | some proc =>
        have hstep : fallback_loop pm (p :: q :: rest)
            = if proc.children.length > 0 then [p]
              else fallback_loop pm (q :: rest) := by
          conv_lhs => unfold fallback_loop
          rw [hp]
        by_cases hc : proc.children.length > 0
        · have hhc : has_children_spec pm p = true := by
            rw [has_children_spec_iff]
            refine ⟨proc, hp, ?_⟩
            intro hnil
            rw [hnil] at hc
            exact absurd hc (by simp)
          rw [hstep, if_pos hc, hspec, hhc, if_pos rfl]
        · have hnil : proc.children = [] := by
            cases hcs : proc.children with
            | nil => rfl
            | cons a as => exact absurd (by rw [hcs]; simp) hc
          have hhc : has_children_spec pm p = false := by
            unfold has_children_spec
            rw [hp]
            show (!proc.children.isEmpty) = false
            rw [hnil]
            rfl
          rw [hstep, if_neg hc, hspec, hhc, if_neg (by simp)]
          apply ih
          obtain ⟨r, hr, hhcr⟩ := hex
          rcases List.mem_cons.mp hr with rfl | hr
          · rw [hhcr] at hhc; cases hhc
          · exact ⟨r, hr, hhcr⟩
      | none =>
        have hstep : fallback_loop pm (p :: q :: rest)
            = fallback_loop pm (q :: rest) := by
          conv_lhs => unfold fallback_loop
          rw [hp]
        have hhc : has_children_spec pm p = false := by
          unfold has_children_spec
          rw [hp]
        rw [hstep, hspec, hhc, if_neg (by simp)]
        apply ih
        obtain ⟨r, hr, hhcr⟩ := hex
        rcases List.mem_cons.mp hr with rfl | hr
        · rw [hhcr] at hhc; cases hhc
        · exact ⟨r, hr, hhcr⟩

/-- C3.  Primary-process selection: `primary_processes` returns (app
pids) minus (secondary pids), where a pid is secondary iff it is listed
as a child of another pid that is also in the app's pid set; and when
that difference is empty it scans the app's pids in original order and
returns the singleton of the first pid that either has children or is
the last pid in the list, returning the empty set if none match.  Stated
as membership agreement with the claim's description, under the data
model's invariant that a process never lists itself as its own child. -/
theorem C3_primary_process_selection (app : App) (pm : List Process)
    (hns : ∀ proc ∈ pm, proc.pid ∉ proc.children) (x : Nat) :
    x ∈ primary_processes app pm ↔ x ∈ primary_processes_spec app pm := by
  have memC : ∀ y, y ∈ primary_loop (secondary_loop app pm [] app.pids) [] app.pids
      ↔ y ∈ app.pids ∧ y ∉ secondary_loop app pm [] app.pids := by
    intro y
    rw [mem_primary_loop]
    simp
  have memS : ∀ y, y ∈ app.pids.filter (fun z => !secondary_spec app pm z)
      ↔ y ∈ app.pids ∧ ¬(secondary_spec app pm y = true) := by
    intro y
    rw [List.mem_filter]
    simp
  have hsame : ∀ y, y ∈ primary_loop (secondary_loop app pm [] app.pids) [] app.pids
      ↔ y ∈ app.pids.filter (fun z => !secondary_spec app pm z) := by
    intro y
    rw [memC, memS]
    constructor
    · rintro ⟨hy, hns'⟩
      exact ⟨hy, fun hc => hns' ((secondary_bridge hns hy).mpr hc)⟩
    · rintro ⟨hy, hns'⟩
      exact ⟨hy, fun hc => hns' ((secondary_bridge hns hy).mp hc)⟩
  simp only [primary_processes, primary_processes_spec]
  by_cases hemp :
      (primary_loop (secondary_loop app pm [] app.pids) [] app.pids).isEmpty = true
  · have hnilC := List.isEmpty_iff.mp hemp
    have hnilS : (app.pids.filter (fun z => !secondary_spec app pm z)) = [] := by
      rw [List.eq_nil_iff_forall_not_mem]
      intro y hy
      rw [← hsame y, hnilC] at hy
      cases hy
    have hempS : (app.pids.filter (fun z => !secondary_spec app pm z)).isEmpty
        = true := by rw [hnilS]; rfl
    rw [if_pos hemp, if_pos hempS]
    cases happ : app.pids with
    | nil => exact Iff.rfl
    | cons h t =>
      have hxh : h ∈ app.pids := by rw [happ]; exact List.mem_cons_self _ _
      have hhsec : h ∈ secondary_loop app pm [] app.pids := by
        by_contra hcon
        have : h ∈ primary_loop (secondary_loop app pm [] app.pids) [] app.pids :=
          (memC h).mpr ⟨hxh, hcon⟩
        rw [hnilC] at this
        cases this
      have hexch : ∃ r ∈ app.pids, has_children_spec pm r = true := by
        rcases mem_secondary_loop.mp hhsec with hfalse | ⟨q, hq, ⟨proc, hpq, hxc⟩, _⟩
        · cases hfalse
        · refine ⟨q, hq, has_children_spec_iff.mpr ⟨proc, hpq, ?_⟩⟩
          intro hnil
          rw [hnil] at hxc
          cases hxc
      rw [happ] at hexch
      rw [fallback_agree hexch]
  · have hempS : ¬ (app.pids.filter (fun z => !secondary_spec app pm z)).isEmpty
        = true := by
      intro hc
      apply hemp
      rw [List.isEmpty_iff, List.eq_nil_iff_forall_not_mem]
      intro y hy
      rw [hsame y, List.isEmpty_iff.mp hc] at hy
      cases hy
    rw [if_neg hemp, if_neg hempS]
    exact hsame x

/-- Witness for C3 on the spec's own scenario: an app owning pids
{100, 200} where 200 is a child of 100 yields exactly the primary set
{100}, in both the code's and the claim's formulation. -/
theorem C3_primary_process_selection_witness :
    (100 ∈ primary_processes { id := "editor", pids := [100, 200] }
        [{ pid := 100, children := [200] }, { pid := 200 }]
      ↔ 100 ∈ primary_processes_spec { id := "editor", pids := [100, 200] }
        [{ pid := 100, children := [200] }, { pid := 200 }])
    ∧ primary_processes { id := "editor", pids := [100, 200] }
        [{ pid := 100, children := [200] }, { pid := 200 }] = [100] :=
  ⟨C3_primary_process_selection { id := "editor", pids := [100, 200] }
      [{ pid := 100, children := [200] }, { pid := 200 }] (by decide) 100,
   by decide⟩

/-! ### No-abort reconciliation -/

theorem update_process_core_isSome {rec} {pm : List Process} {process : Process}
    {row : RowModel} {icons : List (Nat × String)} {icon : String} {mg : Bool}
    {sect : SectionType} {ps : Option Service}
    (h : (rec process.children row.children icons (proc_icon icons icon process) mg
      sect ps).isSome = true) :
    (update_process_core rec pm process row icons icon mg sect ps).isSome = true := by
  unfold update_process_core
  split
  · rfl
  · next hnone => rw [hnone] at h; cases h

/-- Termination of `update_processes` on ranked (forest-shaped) process
tables: a rank function decreasing along the child links bounds the
recursion depth, so any fuel above the ranks of the requested pids
suffices. -/
theorem update_processes_isSome {pm : List Process} (rank : Nat → Nat)
    (hrank : ∀ proc ∈ pm, ∀ c ∈ proc.children, rank c < rank proc.pid) :
    ∀ (fuel : Nat) (pids : List Nat) (list : List RowModel)
      (icons : List (Nat × String)) (icon : String) (mg : Bool) (sect : SectionType)
      (ps : Option Service),
      0 < fuel →
      (∀ p ∈ pids, (pfind pm p).isSome = true → rank p + 1 < fuel) →
      (update_processes fuel pm pids list icons icon mg sect ps).isSome = true := by
  intro fuel
  induction fuel with
  | zero => intro _ _ _ _ _ _ _ h0; cases h0
  | succ n ih =>
    intro pids list icons icon mg sect ps _ hp
    have hchild : ∀ (proc : Process), pfind pm proc.pid = some proc →
        rank proc.pid + 1 < n + 1 →
        ∀ (ch_rows : List RowModel) (icons2 : List (Nat × String)) (icon2 : String),
          (update_processes n pm proc.children ch_rows icons2 icon2 mg sect ps).isSome
            = true := by
      intro proc hfind hlt ch_rows icons2 icon2
      have h0n : 0 < n := Nat.lt_of_le_of_lt (Nat.zero_le _) (Nat.lt_of_succ_lt_succ hlt)
      apply ih proc.children ch_rows icons2 icon2 mg sect ps h0n
      intro c hc hcs
      have hcr : rank c < rank proc.pid :=
        hrank proc (pfind_some hfind).1 c hc
      have : rank proc.pid < n := Nat.lt_of_succ_lt_succ hlt
      omega
    simp only [update_processes]
    have hphase1 : (mapOpt (upd_process_row (update_processes n pm) pm pids icons
        icon mg sect ps) list).isSome = true := by
      apply mapOpt_isSome
      intro r _
      unfold upd_process_row
      split
      · next hcont =>
        split
        · next proc hfind =>
          apply update_process_core_isSome
          have hpidr : proc.pid = r.pid := (pfind_some hfind).2
          apply hchild proc (by rw [hpidr]; exact hfind)
          · rw [hpidr]
            exact hp r.pid (List.elem_iff.mp hcont) (by rw [hfind]; rfl)
        · rfl
      · rfl
    split
    · next hnone => rw [hnone] at hphase1; cases hphase1
    · next rows hrows =>
      have hphase3 : (mapOpt (fun process =>
          update_process_core (update_processes n pm) pm process
            (build_process_row sect process) icons icon mg sect ps)
          ((pids.filter (fun p => !(procs_seen pm pids list).contains p)).filterMap
            (pfind pm))).isSome = true := by
        apply mapOpt_isSome
        intro proc hproc
        obtain ⟨q, hq, hpq⟩ := List.mem_filterMap.mp hproc
        have hqpids : q ∈ pids := (List.mem_filter.mp hq).1
        apply update_process_core_isSome
        have hqpid : proc.pid = q := (pfind_some hpq).2
        apply hchild proc (by rw [hqpid]; exact hpq)
        · rw [hqpid]
          exact hp q hqpids (by rw [hpq]; rfl)
      split
      · next hnone => rw [hnone] at hphase3; cases hphase3
      · rfl

theorem update_service_isSome {pm : List Process} (rank : Nat → Nat)
    (hrank : ∀ proc ∈ pm, ∀ c ∈ proc.children, rank c < rank proc.pid)
    (fuel : Nat) (row : RowModel) (svc : Service) (icons : List (Nat × String))
    (icon : String) (mg : Bool)
    (h0 : 0 < fuel)
    (hsvc : ∀ p ∈ svc.pid.toList, (pfind pm p).isSome = true → rank p + 1 < fuel) :
    (update_service fuel pm row svc icons icon mg).isSome = true := by
  unfold update_service
  split
  · next p hp =>
    have hups := update_processes_isSome rank hrank fuel [p]
      ((apply_service_stats pm p (apply_service_fields svc row)).children.filter
        (fun child => child.pid == p))
      icons icon mg
      (apply_service_stats pm p (apply_service_fields svc row)).section_type
      (some svc) h0
      (by
        intro q hq hqs
        rw [List.mem_singleton] at hq
        subst hq
        exact hsvc q (by rw [hp]; exact List.mem_singleton.mpr rfl) hqs)
    simp only at hups ⊢
    split
    · rfl
    · next hnone => rw [hnone] at hups; cases hups
  · rfl

theorem upd_service_rows_isSome {pm : List Process} (rank : Nat → Nat)
    (hrank : ∀ proc ∈ pm, ∀ c ∈ proc.children, rank c < rank proc.pid)
    (fuel : Nat) (services : List Service) (icons : List (Nat × String))
    (icon : String) (mg : Bool)
    (h0 : 0 < fuel)
    (hs : ∀ svc ∈ services, ∀ p ∈ svc.pid.toList,
      (pfind pm p).isSome = true → rank p + 1 < fuel) :
    ∀ (rows : List RowModel),
      (upd_service_rows fuel pm services icons icon mg rows).isSome = true
  | [] => rfl
  | r :: rs => by
    unfold upd_service_rows
    have hrest := upd_service_rows_isSome rank hrank fuel services icons icon mg
      h0 hs rs
    split
    · next svc hsvc =>
      have hup := update_service_isSome rank hrank fuel r svc icons icon mg h0
        (hs svc (List.mem_of_find?_eq_some hsvc))
      split
      · next r' hr' =>
        cases hrows : upd_service_rows fuel pm services icons icon mg rs with
        | none => rw [hrows] at hrest; cases hrest
        | some rest => simp
      · next hnone => rw [hnone] at hup; cases hup
    · cases hrows : upd_service_rows fuel pm services icons icon mg rs with
      | none => rw [hrows] at hrest; cases hrest
      | some rest => simp

/-- C9.  No-abort reconciliation: on process tables satisfying the data
model's forest invariant (witnessed by a rank function decreasing along
child links) and with recursion fuel above the ranks involved, the
reconciliation entry points run to completion — `update_processes` and
`update_services` return a result (they never hit the fuel bound that
models unbounded recursion, and every missing lookup degrades to
treating the entity as absent), while `update_apps` is a total function
of the embedding by construction. -/
theorem C9_no_abort_reconciliation
    (pm : List Process) (rank : Nat → Nat)
    (hrank : ∀ proc ∈ pm, ∀ c ∈ proc.children, rank c < rank proc.pid)
    (fuel : Nat) (h0 : 0 < fuel)
    (pids : List Nat) (plist : List RowModel) (icons : List (Nat × String))
    (icon : String) (mg : Bool) (sect : SectionType) (ps : Option Service)
    (hp : ∀ p ∈ pids, (pfind pm p).isSome = true → rank p + 1 < fuel)
    (services : List Service) (slist : List RowModel) (sect2 : SectionType)
    (hs : ∀ svc ∈ services, ∀ p ∈ svc.pid.toList,
      (pfind pm p).isSome = true → rank p + 1 < fuel) :
    (update_processes fuel pm pids plist icons icon mg sect ps).isSome = true
    ∧ (update_services fuel pm services slist icons icon mg sect2).isSome = true := by
  constructor
  · exact update_processes_isSome rank hrank fuel pids plist icons icon mg sect ps
      h0 hp
  · unfold update_services
    have hphase1 := upd_service_rows_isSome rank hrank fuel services icons icon mg
      h0 hs slist
    split
    · next hnone => rw [hnone] at hphase1; cases hphase1
    · next rows hrows =>
      have hphase3 : (mapOpt (fun service =>
          update_service fuel pm (build_service_row sect2 service) service icons
            icon mg)
          (services.filter (fun s => !(svcs_seen services slist).contains s.id))).isSome
          = true := by
        apply mapOpt_isSome
        intro svc hsvc
        exact update_service_isSome rank hrank fuel (build_service_row sect2 svc)
          svc icons icon mg h0 (hs svc (List.mem_filter.mp hsvc).1)
      split
      · next hnone => rw [hnone] at hphase3; cases hphase3
      · rfl

/-- Witness for C9: a two-level process chain with an explicit rank
function, one requested top pid and one service owning the child pid. -/
theorem C9_no_abort_reconciliation_witness :
    (update_processes 3 [{ pid := 1, children := [2] }, { pid := 2 }] [1]
      [] [] "" true SectionType.firstSection none).isSome = true
    ∧ (update_services 3 [{ pid := 1, children := [2] }, { pid := 2 }]
      [{ id := 4, pid := some 2 }] [] [] "" true
      SectionType.secondSection).isSome = true :=
  C9_no_abort_reconciliation [{ pid := 1, children := [2] }, { pid := 2 }]
    (fun p => if p == 1 then 1 else 0) (by decide) 3 (by decide) [1] [] [] "" true
    SectionType.firstSection none (by decide) [{ id := 4, pid := some 2 }] []
    SectionType.secondSection (by decide)

end ETM
